import Mathlib

/-!
# Verification of `metaball-contour.c`

A shallow embedding of the two exported functions of
`src/src/wasm/metaball-contour.c` together with proofs of the spec's claims.

Modelling conventions:
* The contour extractor (`marching_squares`, `get_edge_point`, `lerp1d`,
  `EDGE_TABLE`, `NUM_PAIRS`) performs only field arithmetic and comparisons,
  so it is embedded over the exact rationals `ℚ` (every IEEE float value is a
  rational, so universally quantified statements over `ℚ` cover all float
  inputs); the float literals `1e-10f` etc. become the exact rationals they
  denote in the source text.
* The field accumulator (`add_bridge_field`, `dist_to_segment_sq`) uses
  `sqrtf`/`expf`, so it is embedded over `ℝ` with `Real.sqrt`/`Real.exp`.
* Caller-owned flat buffers (`grid_values`, `mst_edges`, `segments_out`) are
  modelled as total functions `ℕ → ℚ` / `ℕ → ℝ`; a buffer store becomes
  `Function.update`.  Functions thread every buffer they can reach through
  their result, so frame properties are visible in the returned state:
  `marching_squares` returns `(grid, segments buffer, count)` and
  `add_bridge_field` returns `(grid, edges buffer)`.
* C `for` loops become folds over explicit index lists.
-/

namespace Metaball

/-! ## Contour extractor: definitions (exact-rational model of the C source) -/

/-- C `lerp1d`: interpolation parameter of the threshold crossing between two
corner values, with a midpoint fallback when the gap is below `1e-10`. -/
def lerp1d (v0 v1 threshold : ℚ) : ℚ :=
  let d := v1 - v0
  if |d| < 1 / 10000000000 then 1 / 2 else (threshold - v0) / d

/-- C `EDGE_TABLE`: the fixed 16-entry case table; each case gives up to two
pairs of cell-edge indices (0=top, 1=right, 2=bottom, 3=left), `-1` is the
unused-slot sentinel. -/
def EDGE_TABLE : ℕ → (ℤ × ℤ) × (ℤ × ℤ)
  | 0  => ((-1, -1), (-1, -1))
  | 1  => ((3, 2), (-1, -1))
  | 2  => ((2, 1), (-1, -1))
  | 3  => ((3, 1), (-1, -1))
  | 4  => ((1, 0), (-1, -1))
  | 5  => ((3, 0), (1, 2))
  | 6  => ((2, 0), (-1, -1))
  | 7  => ((3, 0), (-1, -1))
  | 8  => ((0, 3), (-1, -1))
  | 9  => ((0, 2), (-1, -1))
  | 10 => ((0, 1), (2, 3))
  | 11 => ((0, 1), (-1, -1))
  | 12 => ((1, 3), (-1, -1))
  | 13 => ((1, 2), (-1, -1))
  | 14 => ((2, 3), (-1, -1))
  | _  => ((-1, -1), (-1, -1))

/-- C `NUM_PAIRS`: how many edge pairs each case emits. -/
def NUM_PAIRS : ℕ → ℕ
  | 0  => 0
  | 1  => 1
  | 2  => 1
  | 3  => 1
  | 4  => 1
  | 5  => 2
  | 6  => 1
  | 7  => 1
  | 8  => 1
  | 9  => 1
  | 10 => 2
  | 11 => 1
  | 12 => 1
  | 13 => 1
  | 14 => 1
  | 15 => 0
  | _  => 0

/-- C `get_edge_point`: world coordinates of the threshold crossing on edge
`edge` of cell `(r, c)`.  The C `switch` has no `default`; the final branch is
unreachable because callers only pass edges `0..3`. -/
def get_edge_point (g : ℕ → ℚ) (cols : ℕ) (ox oy cs : ℚ) (r c : ℕ)
    (edge : ℤ) (th : ℚ) : ℚ × ℚ :=
  let tl := g (r * cols + c)
  let tr := g (r * cols + c + 1)
  let bl := g ((r + 1) * cols + c)
  let br := g ((r + 1) * cols + c + 1)
  let x0 := ox + (c : ℚ) * cs
  let y0 := oy + (r : ℚ) * cs
  let x1 := x0 + cs
  let y1 := y0 + cs
  if edge = 0 then (x0 + lerp1d tl tr th * cs, y0)
  else if edge = 1 then (x1, y0 + lerp1d tr br th * cs)
  else if edge = 2 then (x0 + lerp1d bl br th * cs, y1)
  else if edge = 3 then (x0, y0 + lerp1d tl bl th * cs)
  else (0, 0)

/-- The inside-test of one corner: `value >= threshold ? 1 : 0`. -/
def cornerBit (v th : ℚ) : ℕ := if th ≤ v then 1 else 0

/-- Case index from the four corner values
(`(tl << 3) | (tr << 2) | (br << 1) | bl` in the C source). -/
def caseOf (tl tr br bl th : ℚ) : ℕ :=
  cornerBit tl th * 8 + cornerBit tr th * 4 + cornerBit br th * 2 + cornerBit bl th

/-- Case index of cell `(r, c)` over the row-major grid. -/
def cellCase (g : ℕ → ℚ) (cols : ℕ) (th : ℚ) (r c : ℕ) : ℕ :=
  caseOf (g (r * cols + c)) (g (r * cols + c + 1))
    (g ((r + 1) * cols + c + 1)) (g ((r + 1) * cols + c)) th

/-- The saddle-disambiguation sample: average of the four corner values. -/
def centerOf (tl tr br bl : ℚ) : ℚ := (tl + tr + br + bl) / 4

/-- Edge pairs chosen for a corner configuration: the `EDGE_TABLE` entry,
overridden for the two saddle cases 5 and 10 by the center-average test. -/
def pairsOf (tl tr br bl th : ℚ) : (ℤ × ℤ) × (ℤ × ℤ) :=
  let caseIndex := caseOf tl tr br bl th
  if caseIndex = 5 ∨ caseIndex = 10 then
    let center := centerOf tl tr br bl
    if caseIndex = 5 then
      if th ≤ center then ((3, 2), (1, 0)) else ((3, 0), (1, 2))
    else
      if th ≤ center then ((0, 3), (2, 1)) else ((0, 1), (2, 3))
  else EDGE_TABLE caseIndex

/-- Edge pairs chosen for cell `(r, c)`. -/
def cellPairs (g : ℕ → ℚ) (cols : ℕ) (th : ℚ) (r c : ℕ) : (ℤ × ℤ) × (ℤ × ℤ) :=
  pairsOf (g (r * cols + c)) (g (r * cols + c + 1))
    (g ((r + 1) * cols + c + 1)) (g ((r + 1) * cols + c)) th

/-- `p`-th pair of the C 2×2 `pairs` array (`p` is `0` or `1`). -/
def pairAt (ps : (ℤ × ℤ) × (ℤ × ℤ)) (p : ℕ) : ℤ × ℤ :=
  if p = 0 then ps.1 else ps.2

/-- The segments the cell loop body emits for cell `(r, c)`, in pair order:
nothing for case 0/15, else one segment per pair `p < NUM_PAIRS case`. -/
def cellSegs (g : ℕ → ℚ) (cols : ℕ) (ox oy cs th : ℚ) (r c : ℕ) :
    List ((ℚ × ℚ) × (ℚ × ℚ)) :=
  let caseIndex := cellCase g cols th r c
  if caseIndex = 0 ∨ caseIndex = 15 then []
  else
    (List.range (NUM_PAIRS caseIndex)).map fun p =>
      (get_edge_point g cols ox oy cs r c (pairAt (cellPairs g cols th r c) p).1 th,
       get_edge_point g cols ox oy cs r c (pairAt (cellPairs g cols th r c) p).2 th)

/-- All segments of a run, in cell-scan order (row-major) then pair order. -/
def msSegList (g : ℕ → ℚ) (cols rows : ℕ) (ox oy cs th : ℚ) :
    List ((ℚ × ℚ) × (ℚ × ℚ)) :=
  (List.range (rows - 1)).flatMap fun r =>
    (List.range (cols - 1)).flatMap fun c => cellSegs g cols ox oy cs th r c

/-- The four stores
`segments_out[seg_count*4+0..3] = x0, y0, x1, y1` of one emitted segment. -/
def writeSeg (s : ℕ → ℚ) (n : ℕ) (seg : (ℚ × ℚ) × (ℚ × ℚ)) : ℕ → ℚ :=
  Function.update (Function.update (Function.update (Function.update
    s (n * 4) seg.1.1) (n * 4 + 1) seg.1.2) (n * 4 + 2) seg.2.1) (n * 4 + 3) seg.2.2

/-- Write a run of segments into the output buffer starting at segment slot
`st.2`, returning the buffer and the advanced `seg_count`. -/
def writeList (st : (ℕ → ℚ) × ℕ) (l : List ((ℚ × ℚ) × (ℚ × ℚ))) : (ℕ → ℚ) × ℕ :=
  l.foldl (fun st seg => (writeSeg st.1 st.2 seg, st.2 + 1)) st

/-- One iteration of the cell loop: reads the grid component of the state,
writes the cell's segments into the output-buffer component, bumps the count.
The state is `(grid, segments_out, seg_count)`. -/
def msCellStep (cols : ℕ) (ox oy cs th : ℚ) (r c : ℕ)
    (st : (ℕ → ℚ) × (ℕ → ℚ) × ℕ) : (ℕ → ℚ) × (ℕ → ℚ) × ℕ :=
  let out := writeList (st.2.1, st.2.2) (cellSegs st.1 cols ox oy cs th r c)
  (st.1, out.1, out.2)

/-- C `marching_squares`: sweep every cell `(r, c)`, `r < rows-1`,
`c < cols-1`, threading the full reachable memory
`(grid, segments_out, seg_count)`; returns the final state (the C return
value is the `seg_count` component). -/
def marching_squares (g : ℕ → ℚ) (cols rows : ℕ) (ox oy cs th : ℚ)
    (segs : ℕ → ℚ) : (ℕ → ℚ) × (ℕ → ℚ) × ℕ :=
  (List.range (rows - 1)).foldl
    (fun st r =>
      (List.range (cols - 1)).foldl (fun st c => msCellStep cols ox oy cs th r c st) st)
    (g, segs, 0)

/-! ## Boolean mirror of the case logic

The four corner tests and the saddle center test are the only data the case
index and the chosen pairs depend on; mirroring them over `Bool` lets the
finite combinatorial facts about the table be settled by `decide` and then
transported to the rational-valued definitions. -/

/-- `caseOf` with the corner tests abstracted to booleans. -/
def caseOfB (b3 b2 b1 b0 : Bool) : ℕ :=
  (cond b3 1 0) * 8 + (cond b2 1 0) * 4 + (cond b1 1 0) * 2 + cond b0 1 0

/-- `pairsOf` with the corner tests and center test abstracted to booleans. -/
def pairsOfB (b3 b2 b1 b0 bc : Bool) : (ℤ × ℤ) × (ℤ × ℤ) :=
  let caseIndex := caseOfB b3 b2 b1 b0
  if caseIndex = 5 ∨ caseIndex = 10 then
    if caseIndex = 5 then
      if bc then ((3, 2), (1, 0)) else ((3, 0), (1, 2))
    else
      if bc then ((0, 3), (2, 1)) else ((0, 1), (2, 3))
  else EDGE_TABLE caseIndex

/-- Inside-bits of the two corners bounding cell edge `e`
(`b3`=top-left, `b2`=top-right, `b1`=bottom-right, `b0`=bottom-left). -/
def edgeBitsOf (b3 b2 b1 b0 : Bool) (e : ℤ) : Bool × Bool :=
  if e = 0 then (b3, b2)
  else if e = 1 then (b2, b1)
  else if e = 2 then (b0, b1)
  else (b3, b0)

/-- Values of the two corners bounding cell edge `e`, in the order
`get_edge_point` feeds them to `lerp1d`. -/
def edgeValsOf (tl tr br bl : ℚ) (e : ℤ) : ℚ × ℚ :=
  if e = 0 then (tl, tr)
  else if e = 1 then (tr, br)
  else if e = 2 then (bl, br)
  else (tl, bl)

/-- Corner values bounding edge `e` of cell `(r, c)` of the grid. -/
def edgeVals (g : ℕ → ℚ) (cols : ℕ) (r c : ℕ) (e : ℤ) : ℚ × ℚ :=
  edgeValsOf (g (r * cols + c)) (g (r * cols + c + 1))
    (g ((r + 1) * cols + c + 1)) (g ((r + 1) * cols + c)) e

/-- One corner strictly below the threshold, the other at or above it. -/
def straddles (th v0 v1 : ℚ) : Prop :=
  (th ≤ v0 ∧ v1 < th) ∨ (v0 < th ∧ th ≤ v1)

/-! ## Field accumulator: definitions (real-valued model of the C source)

`sqrtf`/`expf` are modelled by `Real.sqrt`/`Real.exp`, the float literals by
the exact rationals they denote, `(int)floorf`/`(int)ceilf` by
`Int.floor`/`Int.ceil`, and the two clamping `if`s on the loop bounds by
`max`/`min`. -/

/-- C `dist_to_segment_sq`: squared distance from `(px, py)` to the segment
`(ax, ay)-(bx, b_y)`, by clamped projection; degenerate segments
(`lenSq < 1e-12`) fall back to point distance. -/
noncomputable def dist_to_segment_sq (px py ax ay bx b_y : ℝ) : ℝ :=
  let dx := bx - ax
  let dy := b_y - ay
  let lenSq := dx * dx + dy * dy
  if lenSq < 1 / 1000000000000 then
    (px - ax) * (px - ax) + (py - ay) * (py - ay)
  else
    let t0 := ((px - ax) * dx + (py - ay) * dy) / lenSq
    let t1 := if t0 < 0 then 0 else t0
    let t := if 1 < t1 then 1 else t1
    let nearX := ax + t * dx
    let nearY := ay + t * dy
    (px - nearX) * (px - nearX) + (py - nearY) * (py - nearY)

/-- Length of a bridge edge (`sqrtf(edx*edx + edy*edy)` in the source). -/
noncomputable def edgeLenOf (ax ay bx b_y : ℝ) : ℝ :=
  Real.sqrt ((bx - ax) * (bx - ax) + (b_y - ay) * (b_y - ay))

/-- Per-edge effective width
(`fmaxf(baseSigma, edgeLen * 0.12f)` in the source; `baseSigma` is already
`fmaxf(base_sigma, cell_size * 2.5f)`). -/
noncomputable def bridgeSigmaOf (baseSigma ax ay bx b_y : ℝ) : ℝ :=
  max baseSigma (edgeLenOf ax ay bx b_y * 0.12)

/-- Hard cutoff radius `3 * bridgeSigma`. -/
noncomputable def cutoffOf (baseSigma ax ay bx b_y : ℝ) : ℝ :=
  3 * bridgeSigmaOf baseSigma ax ay bx b_y

/-- First visited row (`floorf` of the expanded box, clamped below by 0). -/
noncomputable def rMinOf (oy cs ay b_y cutoff : ℝ) : ℤ :=
  max (Int.floor ((min ay b_y - cutoff - oy) / cs)) 0

/-- Last visited row (`ceilf` of the expanded box, clamped above by
`rows - 1`). -/
noncomputable def rMaxOf (rows : ℕ) (oy cs ay b_y cutoff : ℝ) : ℤ :=
  min (Int.ceil ((max ay b_y + cutoff - oy) / cs)) ((rows : ℤ) - 1)

/-- First visited column. -/
noncomputable def cMinOf (ox cs ax bx cutoff : ℝ) : ℤ :=
  max (Int.floor ((min ax bx - cutoff - ox) / cs)) 0

/-- Last visited column. -/
noncomputable def cMaxOf (cols : ℕ) (ox cs ax bx cutoff : ℝ) : ℤ :=
  min (Int.ceil ((max ax bx + cutoff - ox) / cs)) ((cols : ℤ) - 1)

/-- `[lo, lo+1, ..., lo+n-1]`: the index list of a C `for` loop. -/
def intRange (lo : ℤ) (n : ℕ) : List ℤ :=
  (List.range n).map fun (k : ℕ) => lo + (k : ℤ)

/-- Row-major list of the cells the bounding-box loops of one edge visit. -/
noncomputable def edgeCells (cols rows : ℕ) (ox oy cs baseSigma ax ay bx b_y : ℝ) :
    List (ℤ × ℤ) :=
  let cutoff := cutoffOf baseSigma ax ay bx b_y
  let rMin := rMinOf oy cs ay b_y cutoff
  let rMax := rMaxOf rows oy cs ay b_y cutoff
  let cMin := cMinOf ox cs ax bx cutoff
  let cMax := cMaxOf cols ox cs ax bx cutoff
  (intRange rMin (rMax + 1 - rMin).toNat).flatMap fun r =>
    (intRange cMin (cMax + 1 - cMin).toNat).map fun c => (r, c)

/-- Row-major list of every cell of the grid.  Modelled from the spec: the
loop range of the naive accumulator variant the spec compares against ("a
naive variant that, for each edge, visits every cell of the grid"). -/
def naiveCells (cols rows : ℕ) : List (ℤ × ℤ) :=
  (intRange 0 rows).flatMap fun r => (intRange 0 cols).map fun c => (r, c)

/-- The squared-cutoff test value `cutoff * cutoff`. -/
noncomputable def cutoffSqOf (baseSigma ax ay bx b_y : ℝ) : ℝ :=
  cutoffOf baseSigma ax ay bx b_y * cutoffOf baseSigma ax ay bx b_y

/-- Loop body of the accumulator: sample the cell's world point, apply the
squared-cutoff test, and accumulate the Gaussian by addition into
`grid_values[r*cols + c]`. -/
noncomputable def accumCell (cols : ℕ) (ox oy cs baseSigma ax ay bx b_y : ℝ)
    (acc : ℕ → ℝ) (rc : ℤ × ℤ) : ℕ → ℝ :=
  let px := ox + (rc.2 : ℝ) * cs
  let py := oy + (rc.1 : ℝ) * cs
  let dSq := dist_to_segment_sq px py ax ay bx b_y
  let bridgeSigma := bridgeSigmaOf baseSigma ax ay bx b_y
  let invTwoSigmaSq := 1 / (2 * bridgeSigma * bridgeSigma)
  if dSq < cutoffSqOf baseSigma ax ay bx b_y then
    Function.update acc (rc.1 * (cols : ℤ) + rc.2).toNat
      (acc (rc.1 * (cols : ℤ) + rc.2).toNat + Real.exp (-dSq * invTwoSigmaSq))
  else acc

/-- Process one edge: visit the bounding-box cell range. -/
noncomputable def addEdge (cols rows : ℕ) (ox oy cs baseSigma ax ay bx b_y : ℝ)
    (g : ℕ → ℝ) : ℕ → ℝ :=
  (edgeCells cols rows ox oy cs baseSigma ax ay bx b_y).foldl
    (accumCell cols ox oy cs baseSigma ax ay bx b_y) g

/-- Modelled from the spec: the naive accumulator variant of claim C7 that
visits every cell of the grid with the same cutoff test and Gaussian
accumulation (the repository has no such function; the spec describes it as
the reference the bounding-box restriction must agree with). -/
noncomputable def addEdgeNaive (cols rows : ℕ) (ox oy cs baseSigma ax ay bx b_y : ℝ)
    (g : ℕ → ℝ) : ℕ → ℝ :=
  (naiveCells cols rows).foldl (accumCell cols ox oy cs baseSigma ax ay bx b_y) g

/-- C `add_bridge_field`: clamp the base width, then fold the edges read from
the flat `mst_edges` buffer over the grid.  The state is
`(grid_values, mst_edges)`; the edges buffer is threaded through untouched
exactly as the C function never stores to it. -/
noncomputable def add_bridge_field (g : ℕ → ℝ) (cols rows : ℕ) (ox oy cs : ℝ)
    (edges : ℕ → ℝ) (num : ℕ) (base_sigma : ℝ) : (ℕ → ℝ) × (ℕ → ℝ) :=
  let baseSigma := max base_sigma (cs * 2.5)
  (List.range num).foldl
    (fun st i =>
      (addEdge cols rows ox oy cs baseSigma (st.2 (i * 4)) (st.2 (i * 4 + 1))
        (st.2 (i * 4 + 2)) (st.2 (i * 4 + 3)) st.1, st.2))
    (g, edges)

/-- Modelled from the spec: `add_bridge_field` with the naive per-edge scan
in place of the bounding-box scan (the comparison point of claim C7). -/
noncomputable def add_bridge_field_naive (g : ℕ → ℝ) (cols rows : ℕ) (ox oy cs : ℝ)
    (edges : ℕ → ℝ) (num : ℕ) (base_sigma : ℝ) : (ℕ → ℝ) × (ℕ → ℝ) :=
  let baseSigma := max base_sigma (cs * 2.5)
  (List.range num).foldl
    (fun st i =>
      (addEdgeNaive cols rows ox oy cs baseSigma (st.2 (i * 4)) (st.2 (i * 4 + 1))
        (st.2 (i * 4 + 2)) (st.2 (i * 4 + 3)) st.1, st.2))
    (g, edges)

/-- The cutoff test of one cell as a proposition. -/
noncomputable def closeCell (ox oy cs baseSigma ax ay bx b_y : ℝ) (rc : ℤ × ℤ) : Prop :=
  dist_to_segment_sq (ox + (rc.2 : ℝ) * cs) (oy + (rc.1 : ℝ) * cs) ax ay bx b_y
    < cutoffSqOf baseSigma ax ay bx b_y

/-- Gaussian contribution of one cell of one edge. -/
noncomputable def gaussOf (ox oy cs baseSigma ax ay bx b_y : ℝ) (rc : ℤ × ℤ) : ℝ :=
  Real.exp (-(dist_to_segment_sq (ox + (rc.2 : ℝ) * cs) (oy + (rc.1 : ℝ) * cs) ax ay bx b_y)
    * (1 / (2 * bridgeSigmaOf baseSigma ax ay bx b_y * bridgeSigmaOf baseSigma ax ay bx b_y)))

open Classical in
/-- Total contribution a visited-cell list deposits at flat grid index `n`:
each visited cell passing the cutoff test whose flat index is `n` adds its
Gaussian term. -/
noncomputable def contribSum (cols : ℕ) (ox oy cs baseSigma ax ay bx b_y : ℝ) (n : ℕ) :
    List (ℤ × ℤ) → ℝ
  | [] => 0
  | rc :: L =>
      (if closeCell ox oy cs baseSigma ax ay bx b_y rc ∧ (rc.1 * (cols : ℤ) + rc.2).toNat = n
       then gaussOf ox oy cs baseSigma ax ay bx b_y rc else 0)
        + contribSum cols ox oy cs baseSigma ax ay bx b_y n L

/-- The clamped projection parameter (`t` after the two clamping `if`s). -/
noncomputable def clamp01 (t : ℝ) : ℝ :=
  if 1 < (if t < 0 then 0 else t) then 1 else (if t < 0 then 0 else t)

/-- The unclamped projection parameter of `(px, py)` onto the segment line. -/
noncomputable def projT (px py ax ay bx b_y : ℝ) : ℝ :=
  ((px - ax) * (bx - ax) + (py - ay) * (b_y - ay))
    / ((bx - ax) * (bx - ax) + (b_y - ay) * (b_y - ay))

lemma cornerBit_eq (v th : ℚ) : cornerBit v th = cond (decide (th ≤ v)) 1 0 := by
  by_cases h : th ≤ v <;> simp [cornerBit, h]

lemma caseOf_eq (tl tr br bl th : ℚ) :
    caseOf tl tr br bl th
      = caseOfB (decide (th ≤ tl)) (decide (th ≤ tr))
          (decide (th ≤ br)) (decide (th ≤ bl)) := by
  simp [caseOf, caseOfB, cornerBit_eq]

lemma pairsOf_eq (tl tr br bl th : ℚ) :
    pairsOf tl tr br bl th
      = pairsOfB (decide (th ≤ tl)) (decide (th ≤ tr))
          (decide (th ≤ br)) (decide (th ≤ bl))
          (decide (th ≤ centerOf tl tr br bl)) := by
  by_cases hc : th ≤ centerOf tl tr br bl <;>
    simp [pairsOf, pairsOfB, caseOf_eq, hc]

lemma edgeBitsOf_eq_decide (tl tr br bl : ℚ) (th : ℚ) (e : ℤ) :
    edgeBitsOf (decide (th ≤ tl)) (decide (th ≤ tr))
        (decide (th ≤ br)) (decide (th ≤ bl)) e
      = (decide (th ≤ (edgeValsOf tl tr br bl e).1),
         decide (th ≤ (edgeValsOf tl tr br bl e).2)) := by
  unfold edgeBitsOf edgeValsOf
  split_ifs <;> rfl

lemma straddles_of_decide_ne (th v0 v1 : ℚ)
    (h : decide (th ≤ v0) ≠ decide (th ≤ v1)) : straddles th v0 v1 := by
  by_cases h0 : th ≤ v0 <;> by_cases h1 : th ≤ v1
  · simp [h0, h1] at h
  · exact Or.inl ⟨h0, not_le.mp h1⟩
  · exact Or.inr ⟨not_le.mp h0, h1⟩
  · simp [h0, h1] at h

lemma NUM_PAIRS_le_two (n : ℕ) : NUM_PAIRS n ≤ 2 := by
  rcases n with _|_|_|_|_|_|_|_|_|_|_|_|_|_|_|_|n <;> simp [NUM_PAIRS]

/-- The finite heart of the table's correctness: every edge referenced by a
chosen pair (any corner configuration, any center test) is a genuine cell
edge `0..3` whose two bounding corners have opposite inside-bits. -/
lemma pairsB_ok : ∀ (b3 b2 b1 b0 bc : Bool) (p : Fin 2),
    (p : ℕ) < NUM_PAIRS (caseOfB b3 b2 b1 b0) →
      (0 ≤ (pairAt (pairsOfB b3 b2 b1 b0 bc) (p : ℕ)).1 ∧
       (pairAt (pairsOfB b3 b2 b1 b0 bc) (p : ℕ)).1 ≤ 3 ∧
       0 ≤ (pairAt (pairsOfB b3 b2 b1 b0 bc) (p : ℕ)).2 ∧
       (pairAt (pairsOfB b3 b2 b1 b0 bc) (p : ℕ)).2 ≤ 3) ∧
      (edgeBitsOf b3 b2 b1 b0 (pairAt (pairsOfB b3 b2 b1 b0 bc) (p : ℕ)).1).1
        ≠ (edgeBitsOf b3 b2 b1 b0 (pairAt (pairsOfB b3 b2 b1 b0 bc) (p : ℕ)).1).2 ∧
      (edgeBitsOf b3 b2 b1 b0 (pairAt (pairsOfB b3 b2 b1 b0 bc) (p : ℕ)).2).1
        ≠ (edgeBitsOf b3 b2 b1 b0 (pairAt (pairsOfB b3 b2 b1 b0 bc) (p : ℕ)).2).2 := by
  decide

/-- Transport of `pairsB_ok` to the grid: every edge referenced by a chosen
pair of a cell is in `0..3` and its bounding corner values straddle the
threshold. -/
lemma cellPairs_emitted_ok (g : ℕ → ℚ) (cols : ℕ) (th : ℚ) (r c : ℕ) (p : ℕ)
    (hp : p < NUM_PAIRS (cellCase g cols th r c)) :
    (0 ≤ (pairAt (cellPairs g cols th r c) p).1 ∧
     (pairAt (cellPairs g cols th r c) p).1 ≤ 3 ∧
     0 ≤ (pairAt (cellPairs g cols th r c) p).2 ∧
     (pairAt (cellPairs g cols th r c) p).2 ≤ 3) ∧
    straddles th (edgeVals g cols r c (pairAt (cellPairs g cols th r c) p).1).1
      (edgeVals g cols r c (pairAt (cellPairs g cols th r c) p).1).2 ∧
    straddles th (edgeVals g cols r c (pairAt (cellPairs g cols th r c) p).2).1
      (edgeVals g cols r c (pairAt (cellPairs g cols th r c) p).2).2 := by
  have hp2 : p < 2 := lt_of_lt_of_le hp (NUM_PAIRS_le_two _)
  have hcase : cellCase g cols th r c
      = caseOfB (decide (th ≤ g (r * cols + c))) (decide (th ≤ g (r * cols + c + 1)))
          (decide (th ≤ g ((r + 1) * cols + c + 1)))
          (decide (th ≤ g ((r + 1) * cols + c))) := by
    simp [cellCase, caseOf_eq]
  have hpairs : cellPairs g cols th r c
      = pairsOfB (decide (th ≤ g (r * cols + c))) (decide (th ≤ g (r * cols + c + 1)))
          (decide (th ≤ g ((r + 1) * cols + c + 1)))
          (decide (th ≤ g ((r + 1) * cols + c)))
          (decide (th ≤ centerOf (g (r * cols + c)) (g (r * cols + c + 1))
            (g ((r + 1) * cols + c + 1)) (g ((r + 1) * cols + c)))) := by
    simp [cellPairs, pairsOf_eq]
  rw [hcase] at hp
  obtain ⟨hrange, hne1, hne2⟩ :=
    pairsB_ok (decide (th ≤ g (r * cols + c))) (decide (th ≤ g (r * cols + c + 1)))
      (decide (th ≤ g ((r + 1) * cols + c + 1))) (decide (th ≤ g ((r + 1) * cols + c)))
      (decide (th ≤ centerOf (g (r * cols + c)) (g (r * cols + c + 1))
        (g ((r + 1) * cols + c + 1)) (g ((r + 1) * cols + c)))) ⟨p, hp2⟩ hp
  rw [edgeBitsOf_eq_decide] at hne1 hne2
  rw [hpairs]
  refine ⟨hrange, ?_, ?_⟩
  · exact straddles_of_decide_ne _ _ _ (by simpa [edgeVals] using hne1)
  · exact straddles_of_decide_ne _ _ _ (by simpa [edgeVals] using hne2)

/-! ## Interpolation bounds -/

lemma lerp1d_mem_unit (v0 v1 th : ℚ) (h : straddles th v0 v1) :
    0 ≤ lerp1d v0 v1 th ∧ lerp1d v0 v1 th ≤ 1 := by
  simp only [lerp1d]
  split_ifs with hd
  · norm_num
  · rcases h with ⟨h0, h1⟩ | ⟨h0, h1⟩
    · have hdneg : v1 - v0 < 0 := by linarith
      constructor
      · rw [div_nonneg_iff]
        right
        constructor <;> linarith
      · rw [div_le_one_iff]
        right; right
        constructor
        · exact hdneg
        · linarith
    · have hdpos : 0 < v1 - v0 := by linarith
      constructor
      · apply div_nonneg <;> linarith
      · rw [div_le_one hdpos]
        linarith

/-- Any threshold crossing emitted for a straddling edge `e ∈ 0..3` of cell
`(r, c)` lies inside the cell's world-space square. -/
lemma get_edge_point_mem_cell (g : ℕ → ℚ) (cols : ℕ) (ox oy cs : ℚ) (r c : ℕ)
    (e : ℤ) (th : ℚ) (hcs : 0 < cs) (he0 : 0 ≤ e) (he3 : e ≤ 3)
    (hstr : straddles th (edgeVals g cols r c e).1 (edgeVals g cols r c e).2) :
    ox + (c : ℚ) * cs ≤ (get_edge_point g cols ox oy cs r c e th).1 ∧
    (get_edge_point g cols ox oy cs r c e th).1 ≤ ox + ((c : ℚ) + 1) * cs ∧
    oy + (r : ℚ) * cs ≤ (get_edge_point g cols ox oy cs r c e th).2 ∧
    (get_edge_point g cols ox oy cs r c e th).2 ≤ oy + ((r : ℚ) + 1) * cs := by
  interval_cases e
  · have hstr' : straddles th (g (r * cols + c)) (g (r * cols + c + 1)) := by
      simpa [edgeVals, edgeValsOf] using hstr
    have ht := lerp1d_mem_unit _ _ th hstr'
    refine ⟨?_, ?_, ?_, ?_⟩ <;> simp only [get_edge_point] <;> norm_num <;>
      nlinarith [ht.1, ht.2, hcs]
  · have hstr' : straddles th (g (r * cols + c + 1)) (g ((r + 1) * cols + c + 1)) := by
      simpa [edgeVals, edgeValsOf] using hstr
    have ht := lerp1d_mem_unit _ _ th hstr'
    refine ⟨?_, ?_, ?_, ?_⟩ <;> simp only [get_edge_point] <;> norm_num <;>
      nlinarith [ht.1, ht.2, hcs]
  · have hstr' : straddles th (g ((r + 1) * cols + c)) (g ((r + 1) * cols + c + 1)) := by
      simpa [edgeVals, edgeValsOf] using hstr
    have ht := lerp1d_mem_unit _ _ th hstr'
    refine ⟨?_, ?_, ?_, ?_⟩ <;> simp only [get_edge_point] <;> norm_num <;>
      nlinarith [ht.1, ht.2, hcs]
  · have hstr' : straddles th (g (r * cols + c)) (g ((r + 1) * cols + c)) := by
      simpa [edgeVals, edgeValsOf] using hstr
    have ht := lerp1d_mem_unit _ _ th hstr'
    refine ⟨?_, ?_, ?_, ?_⟩ <;> simp only [get_edge_point] <;> norm_num <;>
      nlinarith [ht.1, ht.2, hcs]

/-! ## Output buffer write lemmas -/

lemma writeList_append (st : (ℕ → ℚ) × ℕ) (l1 l2 : List ((ℚ × ℚ) × (ℚ × ℚ))) :
    writeList st (l1 ++ l2) = writeList (writeList st l1) l2 :=
  List.foldl_append _ _ _ _

lemma writeList_count (l : List ((ℚ × ℚ) × (ℚ × ℚ))) (s : ℕ → ℚ) (n : ℕ) :
    (writeList (s, n) l).2 = n + l.length := by
  induction l generalizing s n with
  | nil => rfl
  | cons a l ih =>
    show (writeList (writeSeg s n a, n + 1) l).2 = n + (a :: l).length
    rw [ih]
    simp only [List.length_cons]
    omega

lemma writeSeg_eval_of_ne (s : ℕ → ℚ) (n : ℕ) (seg : (ℚ × ℚ) × (ℚ × ℚ)) (j : ℕ)
    (h1 : j ≠ n * 4) (h2 : j ≠ n * 4 + 1) (h3 : j ≠ n * 4 + 2) (h4 : j ≠ n * 4 + 3) :
    writeSeg s n seg j = s j := by
  unfold writeSeg
  rw [Function.update_noteq h4, Function.update_noteq h3,
    Function.update_noteq h2, Function.update_noteq h1]

lemma writeSeg_eval (s : ℕ → ℚ) (n : ℕ) (seg : (ℚ × ℚ) × (ℚ × ℚ)) :
    writeSeg s n seg (n * 4) = seg.1.1 ∧ writeSeg s n seg (n * 4 + 1) = seg.1.2 ∧
    writeSeg s n seg (n * 4 + 2) = seg.2.1 ∧ writeSeg s n seg (n * 4 + 3) = seg.2.2 := by
  unfold writeSeg
  refine ⟨?_, ?_, ?_, ?_⟩
  · rw [Function.update_noteq (by omega), Function.update_noteq (by omega),
      Function.update_noteq (by omega), Function.update_same]
  · rw [Function.update_noteq (by omega), Function.update_noteq (by omega),
      Function.update_same]
  · rw [Function.update_noteq (by omega), Function.update_same]
  · rw [Function.update_same]

lemma writeList_out_lower (l : List ((ℚ × ℚ) × (ℚ × ℚ))) (s : ℕ → ℚ) (n j : ℕ)
    (h : j < n * 4) : (writeList (s, n) l).1 j = s j := by
  induction l generalizing s n with
  | nil => rfl
  | cons a l ih =>
    show (writeList (writeSeg s n a, n + 1) l).1 j = s j
    rw [ih _ _ (by omega)]
    exact writeSeg_eval_of_ne _ _ _ _ (by omega) (by omega) (by omega) (by omega)

lemma writeList_out_upper (l : List ((ℚ × ℚ) × (ℚ × ℚ))) (s : ℕ → ℚ) (n j : ℕ)
    (h : (n + l.length) * 4 ≤ j) : (writeList (s, n) l).1 j = s j := by
  induction l generalizing s n with
  | nil => rfl
  | cons a l ih =>
    simp only [List.length_cons] at h
    show (writeList (writeSeg s n a, n + 1) l).1 j = s j
    rw [ih _ _ (by omega)]
    exact writeSeg_eval_of_ne _ _ _ _ (by omega) (by omega) (by omega) (by omega)

lemma writeList_out_content (l : List ((ℚ × ℚ) × (ℚ × ℚ))) (s : ℕ → ℚ) (n i : ℕ)
    (h : i < l.length) :
    (writeList (s, n) l).1 ((n + i) * 4) = (l.get ⟨i, h⟩).1.1 ∧
    (writeList (s, n) l).1 ((n + i) * 4 + 1) = (l.get ⟨i, h⟩).1.2 ∧
    (writeList (s, n) l).1 ((n + i) * 4 + 2) = (l.get ⟨i, h⟩).2.1 ∧
    (writeList (s, n) l).1 ((n + i) * 4 + 3) = (l.get ⟨i, h⟩).2.2 := by
  induction l generalizing s n i with
  | nil => simp at h
  | cons a l ih =>
    cases i with
    | zero =>
      have he := writeSeg_eval s n a
      refine ⟨?_, ?_, ?_, ?_⟩
      · show (writeList (writeSeg s n a, n + 1) l).1 ((n + 0) * 4) = _
        rw [writeList_out_lower _ _ _ _ (by omega), Nat.add_zero]
        exact he.1
      · show (writeList (writeSeg s n a, n + 1) l).1 ((n + 0) * 4 + 1) = _
        rw [writeList_out_lower _ _ _ _ (by omega), Nat.add_zero]
        exact he.2.1
      · show (writeList (writeSeg s n a, n + 1) l).1 ((n + 0) * 4 + 2) = _
        rw [writeList_out_lower _ _ _ _ (by omega), Nat.add_zero]
        exact he.2.2.1
      · show (writeList (writeSeg s n a, n + 1) l).1 ((n + 0) * 4 + 3) = _
        rw [writeList_out_lower _ _ _ _ (by omega), Nat.add_zero]
        exact he.2.2.2
    | succ i =>
      simp only [List.length_cons, Nat.succ_lt_succ_iff] at h
      show (writeList (writeSeg s n a, n + 1) l).1 ((n + (i + 1)) * 4) = _ ∧ _
      have := ih (writeSeg s n a) (n + 1) i h
      have harith : (n + 1 + i) = (n + (i + 1)) := by omega
      rw [harith] at this
      simpa using this

/-! ## The cell sweep as a flat segment list -/

lemma msCellStep_eq (cols : ℕ) (ox oy cs th : ℚ) (r c : ℕ) (g s : ℕ → ℚ) (n : ℕ) :
    msCellStep cols ox oy cs th r c (g, s, n)
      = (g, writeList (s, n) (cellSegs g cols ox oy cs th r c)) := rfl

lemma ms_inner_fold (g : ℕ → ℚ) (cols : ℕ) (ox oy cs th : ℚ) (r : ℕ)
    (l : List ℕ) (s : ℕ → ℚ) (n : ℕ) :
    l.foldl (fun st c => msCellStep cols ox oy cs th r c st) (g, s, n)
      = (g, writeList (s, n) (l.flatMap fun c => cellSegs g cols ox oy cs th r c)) := by
  induction l generalizing s n with
  | nil => rfl
  | cons c l ih =>
    show l.foldl _ (msCellStep cols ox oy cs th r c (g, s, n)) = _
    rw [msCellStep_eq, List.flatMap_cons, writeList_append]
    exact ih _ _

lemma ms_outer_fold (g : ℕ → ℚ) (cols : ℕ) (ox oy cs th : ℚ)
    (R : List ℕ) (s : ℕ → ℚ) (n : ℕ) :
    R.foldl (fun st r =>
        (List.range (cols - 1)).foldl (fun st c => msCellStep cols ox oy cs th r c st) st)
      (g, s, n)
      = (g, writeList (s, n) (R.flatMap fun r =>
          (List.range (cols - 1)).flatMap fun c => cellSegs g cols ox oy cs th r c)) := by
  induction R generalizing s n with
  | nil => rfl
  | cons r R ih =>
    show R.foldl _ ((List.range (cols - 1)).foldl _ (g, s, n)) = _
    rw [ms_inner_fold, List.flatMap_cons, writeList_append]
    exact ih _ _

/-- The state-threading sweep in closed form: the grid passes through
untouched, the segments are `msSegList` written out from slot 0. -/
lemma marching_squares_eq (g : ℕ → ℚ) (cols rows : ℕ) (ox oy cs th : ℚ) (segs : ℕ → ℚ) :
    marching_squares g cols rows ox oy cs th segs
      = (g, writeList (segs, 0) (msSegList g cols rows ox oy cs th)) := by
  unfold marching_squares msSegList
  exact ms_outer_fold g cols ox oy cs th (List.range (rows - 1)) segs 0

lemma marching_squares_count (g : ℕ → ℚ) (cols rows : ℕ) (ox oy cs th : ℚ) (segs : ℕ → ℚ) :
    (marching_squares g cols rows ox oy cs th segs).2.2
      = (msSegList g cols rows ox oy cs th).length := by
  rw [marching_squares_eq]
  show (writeList (segs, 0) _).2 = _
  rw [writeList_count]
  omega

/-! ## Segment count bounds -/

lemma cellSegs_length (g : ℕ → ℚ) (cols : ℕ) (ox oy cs th : ℚ) (r c : ℕ) :
    (cellSegs g cols ox oy cs th r c).length
      = if cellCase g cols th r c = 0 ∨ cellCase g cols th r c = 15 then 0
        else NUM_PAIRS (cellCase g cols th r c) := by
  simp only [cellSegs]
  split_ifs with h <;> simp

lemma cellSegs_length_le (g : ℕ → ℚ) (cols : ℕ) (ox oy cs th : ℚ) (r c : ℕ) :
    (cellSegs g cols ox oy cs th r c).length ≤ 2 := by
  rw [cellSegs_length]
  split_ifs
  · omega
  · exact NUM_PAIRS_le_two _

lemma length_flatMap_le {α : Type} (n : ℕ) (f : ℕ → List α) (k : ℕ)
    (h : ∀ i, (f i).length ≤ k) : ((List.range n).flatMap f).length ≤ n * k := by
  induction n with
  | zero => simp
  | succ n ih =>
    rw [List.range_succ, List.flatMap_append, List.length_append]
    have : ((List.range n).flatMap f).length ≤ n * k := ih
    have hf : ([n].flatMap f).length ≤ k := by simpa using h n
    calc ((List.range n).flatMap f).length + ([n].flatMap f).length ≤ n * k + k := by omega
      _ = (n + 1) * k := by ring

lemma msSegList_length_le (g : ℕ → ℚ) (cols rows : ℕ) (ox oy cs th : ℚ) :
    (msSegList g cols rows ox oy cs th).length ≤ 2 * (rows - 1) * (cols - 1) := by
  unfold msSegList
  calc ((List.range (rows - 1)).flatMap fun r =>
          (List.range (cols - 1)).flatMap fun c => cellSegs g cols ox oy cs th r c).length
      ≤ (rows - 1) * ((cols - 1) * 2) := by
        apply length_flatMap_le
        intro r
        apply length_flatMap_le
        intro c
        exact cellSegs_length_le g cols ox oy cs th r c
    _ = 2 * (rows - 1) * (cols - 1) := by ring

/-! ## Field accumulator: closed form of the accumulation fold -/

open Classical in
lemma accumCell_eval (cols : ℕ) (ox oy cs baseSigma ax ay bx b_y : ℝ)
    (acc : ℕ → ℝ) (rc : ℤ × ℤ) (n : ℕ) :
    accumCell cols ox oy cs baseSigma ax ay bx b_y acc rc n
      = acc n
        + (if closeCell ox oy cs baseSigma ax ay bx b_y rc
              ∧ (rc.1 * (cols : ℤ) + rc.2).toNat = n
           then gaussOf ox oy cs baseSigma ax ay bx b_y rc else 0) := by
  simp only [accumCell, closeCell, gaussOf]
  by_cases hclose : dist_to_segment_sq (ox + (rc.2 : ℝ) * cs) (oy + (rc.1 : ℝ) * cs)
      ax ay bx b_y < cutoffSqOf baseSigma ax ay bx b_y
  · rw [if_pos hclose]
    by_cases hidx : (rc.1 * (cols : ℤ) + rc.2).toNat = n
    · rw [if_pos ⟨hclose, hidx⟩, hidx, Function.update_same]
    · rw [if_neg (by tauto), Function.update_noteq (fun h => hidx h.symm), add_zero]
  · rw [if_neg hclose, if_neg (by tauto), add_zero]

lemma foldl_accumCell (L : List (ℤ × ℤ)) (cols : ℕ) (ox oy cs baseSigma ax ay bx b_y : ℝ)
    (g : ℕ → ℝ) (n : ℕ) :
    (L.foldl (accumCell cols ox oy cs baseSigma ax ay bx b_y) g) n
      = g n + contribSum cols ox oy cs baseSigma ax ay bx b_y n L := by
  induction L generalizing g with
  | nil => simp [contribSum]
  | cons rc L ih =>
    rw [List.foldl_cons, ih, contribSum, accumCell_eval]
    ring

lemma addEdge_eval (cols rows : ℕ) (ox oy cs baseSigma ax ay bx b_y : ℝ)
    (g : ℕ → ℝ) (n : ℕ) :
    addEdge cols rows ox oy cs baseSigma ax ay bx b_y g n
      = g n + contribSum cols ox oy cs baseSigma ax ay bx b_y n
          (edgeCells cols rows ox oy cs baseSigma ax ay bx b_y) :=
  foldl_accumCell _ _ _ _ _ _ _ _ _ _ _ _

lemma addEdgeNaive_eval (cols rows : ℕ) (ox oy cs baseSigma ax ay bx b_y : ℝ)
    (g : ℕ → ℝ) (n : ℕ) :
    addEdgeNaive cols rows ox oy cs baseSigma ax ay bx b_y g n
      = g n + contribSum cols ox oy cs baseSigma ax ay bx b_y n (naiveCells cols rows) :=
  foldl_accumCell _ _ _ _ _ _ _ _ _ _ _ _

lemma abf_fold_snd (L : List ℕ) (cols rows : ℕ) (ox oy cs baseSigma : ℝ)
    (g edges : ℕ → ℝ) :
    (L.foldl
        (fun (st : (ℕ → ℝ) × (ℕ → ℝ)) i =>
          (addEdge cols rows ox oy cs baseSigma (st.2 (i * 4)) (st.2 (i * 4 + 1))
            (st.2 (i * 4 + 2)) (st.2 (i * 4 + 3)) st.1, st.2))
        (g, edges)).2 = edges := by
  induction L generalizing g with
  | nil => rfl
  | cons i L ih => exact ih _

lemma add_bridge_field_snd (g : ℕ → ℝ) (cols rows : ℕ) (ox oy cs : ℝ)
    (edges : ℕ → ℝ) (num : ℕ) (base_sigma : ℝ) :
    (add_bridge_field g cols rows ox oy cs edges num base_sigma).2 = edges :=
  abf_fold_snd (List.range num) cols rows ox oy cs _ g edges

lemma add_bridge_field_one (g : ℕ → ℝ) (cols rows : ℕ) (ox oy cs : ℝ)
    (edges : ℕ → ℝ) (base_sigma : ℝ) :
    (add_bridge_field g cols rows ox oy cs edges 1 base_sigma).1
      = addEdge cols rows ox oy cs (max base_sigma (cs * 2.5))
          (edges 0) (edges 1) (edges 2) (edges 3) g := by
  show (addEdge cols rows ox oy cs (max base_sigma (cs * 2.5))
      (edges (0 * 4)) (edges (0 * 4 + 1)) (edges (0 * 4 + 2)) (edges (0 * 4 + 3)) g) = _
  norm_num

lemma add_bridge_field_two (g : ℕ → ℝ) (cols rows : ℕ) (ox oy cs : ℝ)
    (edges : ℕ → ℝ) (base_sigma : ℝ) :
    (add_bridge_field g cols rows ox oy cs edges 2 base_sigma).1
      = addEdge cols rows ox oy cs (max base_sigma (cs * 2.5))
          (edges 4) (edges 5) (edges 6) (edges 7)
          (addEdge cols rows ox oy cs (max base_sigma (cs * 2.5))
            (edges 0) (edges 1) (edges 2) (edges 3) g) := by
  show (addEdge cols rows ox oy cs (max base_sigma (cs * 2.5))
      (edges (1 * 4)) (edges (1 * 4 + 1)) (edges (1 * 4 + 2)) (edges (1 * 4 + 3))
      (addEdge cols rows ox oy cs (max base_sigma (cs * 2.5))
        (edges (0 * 4)) (edges (0 * 4 + 1)) (edges (0 * 4 + 2)) (edges (0 * 4 + 3)) g)) = _
  norm_num

/-! ## Field accumulator: bounding-box geometry -/

lemma clamp01_mem (t : ℝ) : 0 ≤ clamp01 t ∧ clamp01 t ≤ 1 := by
  by_cases h0 : t < 0
  · norm_num [clamp01, h0]
  · by_cases h1 : 1 < t
    · simp [clamp01, h0, h1]
    · simp only [clamp01, if_neg h0, if_neg h1]
      exact ⟨not_lt.mp h0, not_lt.mp h1⟩

/-- `dist_to_segment_sq` with its clamped projection named. -/
lemma dist_to_segment_sq_eq (px py ax ay bx b_y : ℝ) :
    dist_to_segment_sq px py ax ay bx b_y
      = if (bx - ax) * (bx - ax) + (b_y - ay) * (b_y - ay) < 1 / 1000000000000 then
          (px - ax) * (px - ax) + (py - ay) * (py - ay)
        else
          (px - (ax + clamp01 (projT px py ax ay bx b_y) * (bx - ax)))
            * (px - (ax + clamp01 (projT px py ax ay bx b_y) * (bx - ax)))
          + (py - (ay + clamp01 (projT px py ax ay bx b_y) * (b_y - ay)))
            * (py - (ay + clamp01 (projT px py ax ay bx b_y) * (b_y - ay))) := rfl

lemma sq_lt_abs (a b : ℝ) (hb : 0 < b) (h : a * a < b * b) : -b < a ∧ a < b := by
  constructor <;> nlinarith

/-- A sample point within cutoff distance of the segment lies in the
segment's bounding box expanded by the cutoff. -/
lemma dist_lt_imp_box (px py ax ay bx b_y cutoff : ℝ) (hcut : 0 < cutoff)
    (h : dist_to_segment_sq px py ax ay bx b_y < cutoff * cutoff) :
    min ax bx - cutoff < px ∧ px < max ax bx + cutoff ∧
    min ay b_y - cutoff < py ∧ py < max ay b_y + cutoff := by
  rw [dist_to_segment_sq_eq] at h
  split_ifs at h with hlen
  · have hx := sq_lt_abs (px - ax) cutoff hcut (by nlinarith [mul_self_nonneg (py - ay)])
    have hy := sq_lt_abs (py - ay) cutoff hcut (by nlinarith [mul_self_nonneg (px - ax)])
    have h1 : min ax bx ≤ ax := min_le_left _ _
    have h2 : ax ≤ max ax bx := le_max_left _ _
    have h3 : min ay b_y ≤ ay := min_le_left _ _
    have h4 : ay ≤ max ay b_y := le_max_left _ _
    exact ⟨by linarith [hx.1], by linarith [hx.2], by linarith [hy.1], by linarith [hy.2]⟩
  · set T := clamp01 (projT px py ax ay bx b_y) with hTdef
    have hTm := clamp01_mem (projT px py ax ay bx b_y)
    rw [← hTdef] at hTm
    have hnx : min ax bx ≤ ax + T * (bx - ax) ∧ ax + T * (bx - ax) ≤ max ax bx := by
      rcases le_total ax bx with hab | hab
      · rw [min_eq_left hab, max_eq_right hab]
        constructor <;> nlinarith [hTm.1, hTm.2]
      · rw [min_eq_right hab, max_eq_left hab]
        constructor <;> nlinarith [hTm.1, hTm.2]
    have hny : min ay b_y ≤ ay + T * (b_y - ay) ∧ ay + T * (b_y - ay) ≤ max ay b_y := by
      rcases le_total ay b_y with hab | hab
      · rw [min_eq_left hab, max_eq_right hab]
        constructor <;> nlinarith [hTm.1, hTm.2]
      · rw [min_eq_right hab, max_eq_left hab]
        constructor <;> nlinarith [hTm.1, hTm.2]
    have hx := sq_lt_abs (px - (ax + T * (bx - ax))) cutoff hcut
      (by nlinarith [mul_self_nonneg (py - (ay + T * (b_y - ay)))])
    have hy := sq_lt_abs (py - (ay + T * (b_y - ay))) cutoff hcut
      (by nlinarith [mul_self_nonneg (px - (ax + T * (bx - ax)))])
    exact ⟨by linarith [hx.1, hnx.1], by linarith [hx.2, hnx.2],
           by linarith [hy.1, hny.1], by linarith [hy.2, hny.2]⟩

lemma bridgeSigma_pos (baseSigma ax ay bx b_y : ℝ) (hb : 0 < baseSigma) :
    0 < bridgeSigmaOf baseSigma ax ay bx b_y :=
  lt_of_lt_of_le hb (le_max_left _ _)

lemma cutoff_pos (baseSigma ax ay bx b_y : ℝ) (hb : 0 < baseSigma) :
    0 < cutoffOf baseSigma ax ay bx b_y := by
  have := bridgeSigma_pos baseSigma ax ay bx b_y hb
  unfold cutoffOf
  linarith

/-- A grid cell passing the cutoff test lies in the clamped loop ranges. -/
lemma cell_in_ranges (cols rows : ℕ) (ox oy cs baseSigma ax ay bx b_y : ℝ)
    (hcs : 0 < cs) (hb : 0 < baseSigma) (r c : ℤ)
    (hr0 : 0 ≤ r) (hr1 : r ≤ (rows : ℤ) - 1) (hc0 : 0 ≤ c) (hc1 : c ≤ (cols : ℤ) - 1)
    (hclose : closeCell ox oy cs baseSigma ax ay bx b_y (r, c)) :
    rMinOf oy cs ay b_y (cutoffOf baseSigma ax ay bx b_y) ≤ r ∧
    r ≤ rMaxOf rows oy cs ay b_y (cutoffOf baseSigma ax ay bx b_y) ∧
    cMinOf ox cs ax bx (cutoffOf baseSigma ax ay bx b_y) ≤ c ∧
    c ≤ cMaxOf cols ox cs ax bx (cutoffOf baseSigma ax ay bx b_y) := by
  have hcut : 0 < cutoffOf baseSigma ax ay bx b_y := cutoff_pos _ _ _ _ _ hb
  have hbox := dist_lt_imp_box (ox + (c : ℝ) * cs) (oy + (r : ℝ) * cs) ax ay bx b_y
    (cutoffOf baseSigma ax ay bx b_y) hcut hclose
  refine ⟨?_, ?_, ?_, ?_⟩
  · apply max_le _ hr0
    have hlt : (min ay b_y - cutoffOf baseSigma ax ay bx b_y - oy) / cs < (r : ℝ) := by
      rw [div_lt_iff₀ hcs]
      linarith [hbox.2.2.1]
    have hfl : (Int.floor ((min ay b_y - cutoffOf baseSigma ax ay bx b_y - oy) / cs) : ℝ)
        ≤ (min ay b_y - cutoffOf baseSigma ax ay bx b_y - oy) / cs := Int.floor_le _
    exact le_of_lt (Int.cast_lt.mp (lt_of_le_of_lt hfl hlt))
  · apply le_min _ hr1
    have hlt : (r : ℝ) < (max ay b_y + cutoffOf baseSigma ax ay bx b_y - oy) / cs := by
      rw [lt_div_iff₀ hcs]
      linarith [hbox.2.2.2]
    have hcl : ((max ay b_y + cutoffOf baseSigma ax ay bx b_y - oy) / cs)
        ≤ (Int.ceil ((max ay b_y + cutoffOf baseSigma ax ay bx b_y - oy) / cs) : ℝ) :=
      Int.le_ceil _
    exact le_of_lt (Int.cast_lt.mp (lt_of_lt_of_le hlt hcl))
  · apply max_le _ hc0
    have hlt : (min ax bx - cutoffOf baseSigma ax ay bx b_y - ox) / cs < (c : ℝ) := by
      rw [div_lt_iff₀ hcs]
      linarith [hbox.1]
    have hfl : (Int.floor ((min ax bx - cutoffOf baseSigma ax ay bx b_y - ox) / cs) : ℝ)
        ≤ (min ax bx - cutoffOf baseSigma ax ay bx b_y - ox) / cs := Int.floor_le _
    exact le_of_lt (Int.cast_lt.mp (lt_of_le_of_lt hfl hlt))
  · apply le_min _ hc1
    have hlt : (c : ℝ) < (max ax bx + cutoffOf baseSigma ax ay bx b_y - ox) / cs := by
      rw [lt_div_iff₀ hcs]
      linarith [hbox.2.1]
    have hcl : ((max ax bx + cutoffOf baseSigma ax ay bx b_y - ox) / cs)
        ≤ (Int.ceil ((max ax bx + cutoffOf baseSigma ax ay bx b_y - ox) / cs) : ℝ) :=
      Int.le_ceil _
    exact le_of_lt (Int.cast_lt.mp (lt_of_lt_of_le hlt hcl))

/-! ## Field accumulator: the bounding-box scan equals the naive scan -/

lemma mem_intRange (x lo : ℤ) (n : ℕ) : x ∈ intRange lo n ↔ lo ≤ x ∧ x < lo + n := by
  simp only [intRange, List.mem_map, List.mem_range]
  constructor
  · rintro ⟨k, hk, rfl⟩
    omega
  · intro h
    exact ⟨(x - lo).toNat, by omega, by omega⟩

lemma intRange_add (lo : ℤ) (m k : ℕ) :
    intRange lo (m + k) = intRange lo m ++ intRange (lo + m) k := by
  simp only [intRange, List.range_add, List.map_append, List.map_map]
  congr 1
  apply List.map_congr_left
  intro a _
  simp only [Function.comp_apply]
  push_cast
  ring

lemma contribSum_nil (cols : ℕ) (ox oy cs baseSigma ax ay bx b_y : ℝ) (n : ℕ) :
    contribSum cols ox oy cs baseSigma ax ay bx b_y n [] = 0 := rfl

open Classical in
lemma contribSum_cons (cols : ℕ) (ox oy cs baseSigma ax ay bx b_y : ℝ) (n : ℕ)
    (rc : ℤ × ℤ) (L : List (ℤ × ℤ)) :
    contribSum cols ox oy cs baseSigma ax ay bx b_y n (rc :: L)
      = (if closeCell ox oy cs baseSigma ax ay bx b_y rc
            ∧ (rc.1 * (cols : ℤ) + rc.2).toNat = n
         then gaussOf ox oy cs baseSigma ax ay bx b_y rc else 0)
        + contribSum cols ox oy cs baseSigma ax ay bx b_y n L := rfl

lemma contribSum_append (cols : ℕ) (ox oy cs baseSigma ax ay bx b_y : ℝ) (n : ℕ)
    (L1 L2 : List (ℤ × ℤ)) :
    contribSum cols ox oy cs baseSigma ax ay bx b_y n (L1 ++ L2)
      = contribSum cols ox oy cs baseSigma ax ay bx b_y n L1
        + contribSum cols ox oy cs baseSigma ax ay bx b_y n L2 := by
  induction L1 with
  | nil => rw [List.nil_append, contribSum_nil, zero_add]
  | cons rc L ih => rw [List.cons_append, contribSum_cons, contribSum_cons, ih, add_assoc]

lemma contribSum_zero (cols : ℕ) (ox oy cs baseSigma ax ay bx b_y : ℝ) (n : ℕ)
    (L : List (ℤ × ℤ))
    (h : ∀ rc ∈ L, ¬(closeCell ox oy cs baseSigma ax ay bx b_y rc
        ∧ (rc.1 * (cols : ℤ) + rc.2).toNat = n)) :
    contribSum cols ox oy cs baseSigma ax ay bx b_y n L = 0 := by
  induction L with
  | nil => rfl
  | cons rc L ih =>
    rw [contribSum_cons, if_neg (h rc (List.mem_cons_self rc L)),
      ih fun x hx => h x (List.mem_cons_of_mem rc hx), add_zero]

lemma contribSum_flatMap {α : Type} (cols : ℕ) (ox oy cs baseSigma ax ay bx b_y : ℝ)
    (n : ℕ) (l : List α) (f : α → List (ℤ × ℤ)) :
    contribSum cols ox oy cs baseSigma ax ay bx b_y n (l.flatMap f)
      = (l.map fun a => contribSum cols ox oy cs baseSigma ax ay bx b_y n (f a)).sum := by
  induction l with
  | nil => rfl
  | cons a l ih =>
    rw [List.flatMap_cons, contribSum_append, ih, List.map_cons, List.sum_cons]

/-- A cell of the grid outside the clamped loop ranges contributes nothing. -/
lemma not_contrib_of_out (cols rows : ℕ) (ox oy cs baseSigma ax ay bx b_y : ℝ)
    (hcs : 0 < cs) (hb : 0 < baseSigma) (n : ℕ) (rc : ℤ × ℤ)
    (hr0 : 0 ≤ rc.1) (hr1 : rc.1 ≤ (rows : ℤ) - 1)
    (hc0 : 0 ≤ rc.2) (hc1 : rc.2 ≤ (cols : ℤ) - 1)
    (hout : rc.1 < rMinOf oy cs ay b_y (cutoffOf baseSigma ax ay bx b_y)
      ∨ rMaxOf rows oy cs ay b_y (cutoffOf baseSigma ax ay bx b_y) < rc.1
      ∨ rc.2 < cMinOf ox cs ax bx (cutoffOf baseSigma ax ay bx b_y)
      ∨ cMaxOf cols ox cs ax bx (cutoffOf baseSigma ax ay bx b_y) < rc.2) :
    ¬(closeCell ox oy cs baseSigma ax ay bx b_y rc
        ∧ (rc.1 * (cols : ℤ) + rc.2).toNat = n) := by
  rintro ⟨hclose, -⟩
  have hrange := cell_in_ranges cols rows ox oy cs baseSigma ax ay bx b_y hcs hb
    rc.1 rc.2 hr0 hr1 hc0 hc1 hclose
  omega

/-- Restricting a row's column sweep to the clamped column range loses no
contribution. -/
lemma row_contrib_eq (cols rows : ℕ) (ox oy cs baseSigma ax ay bx b_y : ℝ)
    (hcs : 0 < cs) (hb : 0 < baseSigma) (n : ℕ) (r : ℤ)
    (hr0 : 0 ≤ r) (hr1 : r ≤ (rows : ℤ) - 1) :
    contribSum cols ox oy cs baseSigma ax ay bx b_y n
        ((intRange 0 cols).map fun c => (r, c))
      = contribSum cols ox oy cs baseSigma ax ay bx b_y n
          ((intRange (cMinOf ox cs ax bx (cutoffOf baseSigma ax ay bx b_y))
              (cMaxOf cols ox cs ax bx (cutoffOf baseSigma ax ay bx b_y) + 1
                - cMinOf ox cs ax bx (cutoffOf baseSigma ax ay bx b_y)).toNat).map
            fun c => (r, c)) := by
  set cMin := cMinOf ox cs ax bx (cutoffOf baseSigma ax ay bx b_y) with hcMin
  set cMax := cMaxOf cols ox cs ax bx (cutoffOf baseSigma ax ay bx b_y) with hcMax
  have hcMin0 : 0 ≤ cMin := le_max_right _ _
  have hcMax1 : cMax ≤ (cols : ℤ) - 1 := min_le_right _ _
  by_cases hne : cMax + 1 - cMin ≤ 0
  · have h0 : (cMax + 1 - cMin).toNat = 0 := by omega
    rw [h0, show intRange cMin 0 = [] from rfl, List.map_nil, contribSum_nil]
    apply contribSum_zero
    rintro rc hmem
    simp only [List.mem_map] at hmem
    obtain ⟨c, hc, heq⟩ := hmem
    rw [mem_intRange] at hc
    subst heq
    exact not_contrib_of_out cols rows ox oy cs baseSigma ax ay bx b_y hcs hb n (r, c)
      hr0 hr1 (by omega) (by omega) (by omega)
  · have hcols : (cols : ℕ) = cMin.toNat
        + ((cMax + 1 - cMin).toNat + ((cols : ℤ) - 1 - cMax).toNat) := by omega
    have e1 : (0 : ℤ) + (cMin.toNat : ℤ) = cMin := by omega
    have e2 : cMin + ((cMax + 1 - cMin).toNat : ℤ) = cMax + 1 := by omega
    have hsplit : intRange 0 cols
        = intRange 0 cMin.toNat ++ (intRange cMin (cMax + 1 - cMin).toNat
            ++ intRange (cMax + 1) (((cols : ℤ) - 1 - cMax).toNat)) := by
      conv_lhs => rw [hcols]
      rw [intRange_add, intRange_add, e1, e2]
    rw [hsplit, List.map_append, List.map_append, contribSum_append, contribSum_append]
    have hzero1 : contribSum cols ox oy cs baseSigma ax ay bx b_y n
        ((intRange 0 cMin.toNat).map fun c => (r, c)) = 0 := by
      apply contribSum_zero
      rintro rc hmem
      simp only [List.mem_map] at hmem
      obtain ⟨c, hc, heq⟩ := hmem
      rw [mem_intRange] at hc
      subst heq
      exact not_contrib_of_out cols rows ox oy cs baseSigma ax ay bx b_y hcs hb n (r, c)
        hr0 hr1 (by omega) (by omega) (by omega)
    have hzero2 : contribSum cols ox oy cs baseSigma ax ay bx b_y n
        ((intRange (cMax + 1) (((cols : ℤ) - 1 - cMax).toNat)).map fun c => (r, c)) = 0 := by
      apply contribSum_zero
      rintro rc hmem
      simp only [List.mem_map] at hmem
      obtain ⟨c, hc, heq⟩ := hmem
      rw [mem_intRange] at hc
      subst heq
      exact not_contrib_of_out cols rows ox oy cs baseSigma ax ay bx b_y hcs hb n (r, c)
        hr0 hr1 (by omega) (by omega) (by omega)
    rw [hzero1, hzero2]
    ring

/-- The naive full-grid scan and the bounding-box scan of one edge deposit
identical contributions at every flat index. -/
lemma contrib_naive_eq_edge (cols rows : ℕ) (ox oy cs baseSigma ax ay bx b_y : ℝ)
    (hcs : 0 < cs) (hb : 0 < baseSigma) (n : ℕ) :
    contribSum cols ox oy cs baseSigma ax ay bx b_y n (naiveCells cols rows)
      = contribSum cols ox oy cs baseSigma ax ay bx b_y n
          (edgeCells cols rows ox oy cs baseSigma ax ay bx b_y) := by
  simp only [naiveCells, edgeCells]
  rw [contribSum_flatMap, contribSum_flatMap]
  set rMin := rMinOf oy cs ay b_y (cutoffOf baseSigma ax ay bx b_y) with hrMin
  set rMax := rMaxOf rows oy cs ay b_y (cutoffOf baseSigma ax ay bx b_y) with hrMax
  set cMin := cMinOf ox cs ax bx (cutoffOf baseSigma ax ay bx b_y) with hcMin
  set cMax := cMaxOf cols ox cs ax bx (cutoffOf baseSigma ax ay bx b_y) with hcMax
  have hrMin0 : 0 ≤ rMin := le_max_right _ _
  have hrMax1 : rMax ≤ (rows : ℤ) - 1 := min_le_right _ _
  have hcMin0 : 0 ≤ cMin := le_max_right _ _
  have hcMax1 : cMax ≤ (cols : ℤ) - 1 := min_le_right _ _
  have hrow : ∀ r ∈ intRange 0 rows,
      contribSum cols ox oy cs baseSigma ax ay bx b_y n
          ((intRange 0 cols).map fun c => (r, c))
        = contribSum cols ox oy cs baseSigma ax ay bx b_y n
            ((intRange cMin (cMax + 1 - cMin).toNat).map fun c => (r, c)) := by
    intro r hr
    rw [mem_intRange] at hr
    exact row_contrib_eq cols rows ox oy cs baseSigma ax ay bx b_y hcs hb n r
      (by omega) (by omega)
  rw [List.map_congr_left hrow]
  by_cases hne : rMax + 1 - rMin ≤ 0
  · have h0 : (rMax + 1 - rMin).toNat = 0 := by omega
    rw [h0, show intRange rMin 0 = [] from rfl, List.map_nil, List.sum_nil]
    apply List.sum_eq_zero
    intro x hx
    simp only [List.mem_map] at hx
    obtain ⟨r, hr, rfl⟩ := hx
    rw [mem_intRange] at hr
    apply contribSum_zero
    rintro rc hmem
    simp only [List.mem_map] at hmem
    obtain ⟨c, hc, heq⟩ := hmem
    rw [mem_intRange] at hc
    subst heq
    exact not_contrib_of_out cols rows ox oy cs baseSigma ax ay bx b_y hcs hb n (r, c)
      (by omega) (by omega) (by omega) (by omega) (by omega)
  · have hrows : (rows : ℕ) = rMin.toNat
        + ((rMax + 1 - rMin).toNat + ((rows : ℤ) - 1 - rMax).toNat) := by omega
    have e1 : (0 : ℤ) + (rMin.toNat : ℤ) = rMin := by omega
    have e2 : rMin + ((rMax + 1 - rMin).toNat : ℤ) = rMax + 1 := by omega
    have hsplit : intRange 0 rows
        = intRange 0 rMin.toNat ++ (intRange rMin (rMax + 1 - rMin).toNat
            ++ intRange (rMax + 1) (((rows : ℤ) - 1 - rMax).toNat)) := by
      conv_lhs => rw [hrows]
      rw [intRange_add, intRange_add, e1, e2]
    rw [hsplit, List.map_append, List.map_append, List.sum_append, List.sum_append]
    have hzero1 : ((intRange 0 rMin.toNat).map fun r =>
        contribSum cols ox oy cs baseSigma ax ay bx b_y n
          ((intRange cMin (cMax + 1 - cMin).toNat).map fun c => (r, c))).sum = 0 := by
      apply List.sum_eq_zero
      intro x hx
      simp only [List.mem_map] at hx
      obtain ⟨r, hr, rfl⟩ := hx
      rw [mem_intRange] at hr
      apply contribSum_zero
      rintro rc hmem
      simp only [List.mem_map] at hmem
      obtain ⟨c, hc, heq⟩ := hmem
      rw [mem_intRange] at hc
      subst heq
      exact not_contrib_of_out cols rows ox oy cs baseSigma ax ay bx b_y hcs hb n (r, c)
        (by omega) (by omega) (by omega) (by omega) (by omega)
    have hzero2 : ((intRange (rMax + 1) (((rows : ℤ) - 1 - rMax).toNat)).map fun r =>
        contribSum cols ox oy cs baseSigma ax ay bx b_y n
          ((intRange cMin (cMax + 1 - cMin).toNat).map fun c => (r, c))).sum = 0 := by
      apply List.sum_eq_zero
      intro x hx
      simp only [List.mem_map] at hx
      obtain ⟨r, hr, rfl⟩ := hx
      rw [mem_intRange] at hr
      apply contribSum_zero
      rintro rc hmem
      simp only [List.mem_map] at hmem
      obtain ⟨c, hc, heq⟩ := hmem
      rw [mem_intRange] at hc
      subst heq
      exact not_contrib_of_out cols rows ox oy cs baseSigma ax ay bx b_y hcs hb n (r, c)
        (by omega) (by omega) (by omega) (by omega) (by omega)
    rw [hzero1, hzero2]
    ring

/-! ## Field accumulator: row-major index injectivity and single-cell sums -/

lemma flatIdx_inj (cols r1 c1 r2 c2 : ℤ) (h1 : 0 ≤ c1) (h2 : c1 < cols)
    (h3 : 0 ≤ c2) (h4 : c2 < cols) (heq : r1 * cols + c1 = r2 * cols + c2) :
    r1 = r2 ∧ c1 = c2 := by
  have hcols : 0 ≤ cols := by omega
  rcases lt_trichotomy r1 r2 with h | h | h
  · exfalso
    have hstep : r1 + 1 ≤ r2 := by omega
    have : (r1 + 1) * cols ≤ r2 * cols :=
      mul_le_mul_of_nonneg_right (by omega) hcols
    nlinarith
  · subst h
    exact ⟨rfl, by omega⟩
  · exfalso
    have hstep : r2 + 1 ≤ r1 := by omega
    have : (r2 + 1) * cols ≤ r1 * cols :=
      mul_le_mul_of_nonneg_right (by omega) hcols
    nlinarith

lemma flat_toNat_inj (cols r1 c1 r2 c2 : ℤ) (hr1 : 0 ≤ r1) (hc1 : 0 ≤ c1)
    (hc1' : c1 < cols) (hr2 : 0 ≤ r2) (hc2 : 0 ≤ c2) (hc2' : c2 < cols)
    (heq : (r1 * cols + c1).toNat = (r2 * cols + c2).toNat) : r1 = r2 ∧ c1 = c2 := by
  have h1 : 0 ≤ r1 * cols := mul_nonneg hr1 (by omega)
  have h2 : 0 ≤ r2 * cols := mul_nonneg hr2 (by omega)
  have heq2 : r1 * cols + c1 = r2 * cols + c2 := by omega
  exact flatIdx_inj cols r1 c1 r2 c2 hc1 hc1' hc2 hc2' heq2

lemma intRange_one (lo : ℤ) : intRange lo 1 = [lo] := by
  rw [show (1 : ℕ) = 0 + 1 from rfl, intRange, List.range_succ]
  simp

/-- The whole bounding-box sweep of an edge deposits exactly one Gaussian
term at the flat index of an in-grid cell that passes the cutoff test. -/
lemma contribSum_edgeCells_single (cols rows : ℕ)
    (ox oy cs baseSigma ax ay bx b_y : ℝ) (hcs : 0 < cs) (hb : 0 < baseSigma)
    (r c : ℤ) (hr0 : 0 ≤ r) (hr1 : r ≤ (rows : ℤ) - 1)
    (hc0 : 0 ≤ c) (hc1 : c ≤ (cols : ℤ) - 1)
    (hclose : closeCell ox oy cs baseSigma ax ay bx b_y (r, c)) :
    contribSum cols ox oy cs baseSigma ax ay bx b_y ((r * (cols : ℤ) + c).toNat)
        (edgeCells cols rows ox oy cs baseSigma ax ay bx b_y)
      = gaussOf ox oy cs baseSigma ax ay bx b_y (r, c) := by
  have hbox := cell_in_ranges cols rows ox oy cs baseSigma ax ay bx b_y hcs hb
    r c hr0 hr1 hc0 hc1 hclose
  simp only [edgeCells]
  rw [contribSum_flatMap]
  set rMin := rMinOf oy cs ay b_y (cutoffOf baseSigma ax ay bx b_y) with hrMin
  set rMax := rMaxOf rows oy cs ay b_y (cutoffOf baseSigma ax ay bx b_y) with hrMax
  set cMin := cMinOf ox cs ax bx (cutoffOf baseSigma ax ay bx b_y) with hcMin
  set cMax := cMaxOf cols ox cs ax bx (cutoffOf baseSigma ax ay bx b_y) with hcMax
  have hrMin0 : 0 ≤ rMin := le_max_right _ _
  have hrMax1 : rMax ≤ (rows : ℤ) - 1 := min_le_right _ _
  have hcMin0 : 0 ≤ cMin := le_max_right _ _
  have hcMax1 : cMax ≤ (cols : ℤ) - 1 := min_le_right _ _
  -- the inner column sweep of one row
  have hrowEval : ∀ r' : ℤ, rMin ≤ r' → r' ≤ rMax →
      contribSum cols ox oy cs baseSigma ax ay bx b_y ((r * (cols : ℤ) + c).toNat)
          ((intRange cMin (cMax + 1 - cMin).toNat).map fun c' => (r', c'))
        = if r' = r then gaussOf ox oy cs baseSigma ax ay bx b_y (r, c) else 0 := by
    intro r' hra hrb
    by_cases hrr : r' = r
    · rw [hrr, if_pos rfl]
      have hcsplit : (cMax + 1 - cMin).toNat
          = (c - cMin).toNat + (1 + (cMax - c).toNat) := by omega
      have e1 : cMin + ((c - cMin).toNat : ℤ) = c := by omega
      have e2 : c + ((1 : ℕ) : ℤ) = c + 1 := by omega
      rw [hcsplit, intRange_add, intRange_add, e1, e2, intRange_one]
      rw [List.map_append, List.map_append, contribSum_append, contribSum_append]
      have hz1 : contribSum cols ox oy cs baseSigma ax ay bx b_y
          ((r * (cols : ℤ) + c).toNat)
          ((intRange cMin (c - cMin).toNat).map fun c' => (r, c')) = 0 := by
        apply contribSum_zero
        rintro rc hmem
        simp only [List.mem_map] at hmem
        obtain ⟨c', hc', heq⟩ := hmem
        rw [mem_intRange] at hc'
        subst heq
        rintro ⟨-, hflat⟩
        have := flat_toNat_inj (cols : ℤ) r c' r c (by omega) (by omega) (by omega)
          hr0 hc0 (by omega) hflat
        omega
      have hz2 : contribSum cols ox oy cs baseSigma ax ay bx b_y
          ((r * (cols : ℤ) + c).toNat)
          ((intRange (c + 1) ((cMax - c).toNat)).map fun c' => (r, c')) = 0 := by
        apply contribSum_zero
        rintro rc hmem
        simp only [List.mem_map] at hmem
        obtain ⟨c', hc', heq⟩ := hmem
        rw [mem_intRange] at hc'
        subst heq
        rintro ⟨-, hflat⟩
        have := flat_toNat_inj (cols : ℤ) r c' r c (by omega) (by omega) (by omega)
          hr0 hc0 (by omega) hflat
        omega
      rw [hz1, hz2, List.map_cons, List.map_nil, contribSum_cons, contribSum_nil,
        if_pos ⟨hclose, rfl⟩]
      ring
    · rw [if_neg hrr]
      apply contribSum_zero
      rintro rc hmem
      simp only [List.mem_map] at hmem
      obtain ⟨c', hc', heq⟩ := hmem
      rw [mem_intRange] at hc'
      subst heq
      rintro ⟨-, hflat⟩
      have := flat_toNat_inj (cols : ℤ) r' c' r c (by omega) (by omega) (by omega)
        hr0 hc0 (by omega) hflat
      omega
  -- split the row sweep at row r
  have hrsplit : (rMax + 1 - rMin).toNat = (r - rMin).toNat + (1 + (rMax - r).toNat) := by
    omega
  have f1 : rMin + ((r - rMin).toNat : ℤ) = r := by omega
  have f2 : r + ((1 : ℕ) : ℤ) = r + 1 := by omega
  rw [hrsplit, intRange_add, intRange_add, f1, f2, intRange_one]
  rw [List.map_append, List.map_append, List.sum_append, List.sum_append]
  have hs1 : ((intRange rMin ((r - rMin).toNat)).map fun r' =>
      contribSum cols ox oy cs baseSigma ax ay bx b_y ((r * (cols : ℤ) + c).toNat)
        ((intRange cMin (cMax + 1 - cMin).toNat).map fun c' => (r', c'))).sum = 0 := by
    apply List.sum_eq_zero
    intro x hx
    simp only [List.mem_map] at hx
    obtain ⟨r', hr', rfl⟩ := hx
    rw [mem_intRange] at hr'
    rw [hrowEval r' (by omega) (by omega)]
    rw [if_neg (by omega)]
  have hs2 : ((intRange (r + 1) ((rMax - r).toNat)).map fun r' =>
      contribSum cols ox oy cs baseSigma ax ay bx b_y ((r * (cols : ℤ) + c).toNat)
        ((intRange cMin (cMax + 1 - cMin).toNat).map fun c' => (r', c'))).sum = 0 := by
    apply List.sum_eq_zero
    intro x hx
    simp only [List.mem_map] at hx
    obtain ⟨r', hr', rfl⟩ := hx
    rw [mem_intRange] at hr'
    rw [hrowEval r' (by omega) (by omega)]
    rw [if_neg (by omega)]
  rw [hs1, hs2, List.map_cons, List.map_nil, List.sum_cons, List.sum_nil]
  rw [hrowEval r (by omega) (by omega), if_pos rfl]
  ring

/-- A far in-grid cell receives no contribution from the whole sweep. -/
lemma contribSum_edgeCells_far (cols rows : ℕ)
    (ox oy cs baseSigma ax ay bx b_y : ℝ)
    (r c : ℤ) (hr0 : 0 ≤ r) (hr1 : r ≤ (rows : ℤ) - 1)
    (hc0 : 0 ≤ c) (hc1 : c ≤ (cols : ℤ) - 1)
    (hfar : ¬ closeCell ox oy cs baseSigma ax ay bx b_y (r, c)) :
    contribSum cols ox oy cs baseSigma ax ay bx b_y ((r * (cols : ℤ) + c).toNat)
        (edgeCells cols rows ox oy cs baseSigma ax ay bx b_y)
      = 0 := by
  simp only [edgeCells]
  set rMin := rMinOf oy cs ay b_y (cutoffOf baseSigma ax ay bx b_y) with hrMin
  set rMax := rMaxOf rows oy cs ay b_y (cutoffOf baseSigma ax ay bx b_y) with hrMax
  set cMin := cMinOf ox cs ax bx (cutoffOf baseSigma ax ay bx b_y) with hcMin
  set cMax := cMaxOf cols ox cs ax bx (cutoffOf baseSigma ax ay bx b_y) with hcMax
  have hrMin0 : 0 ≤ rMin := le_max_right _ _
  have hrMax1 : rMax ≤ (rows : ℤ) - 1 := min_le_right _ _
  have hcMin0 : 0 ≤ cMin := le_max_right _ _
  have hcMax1 : cMax ≤ (cols : ℤ) - 1 := min_le_right _ _
  apply contribSum_zero
  rintro rc hmem
  simp only [List.mem_flatMap, List.mem_map] at hmem
  obtain ⟨r', hr', c', hc', heq⟩ := hmem
  rw [mem_intRange] at hr'
  rw [mem_intRange] at hc'
  subst heq
  rintro ⟨hclose, hflat⟩
  have := flat_toNat_inj (cols : ℤ) r' c' r c (by omega) (by omega) (by omega)
    hr0 hc0 (by omega) hflat
  obtain ⟨rfl, rfl⟩ := this
  exact hfar hclose

lemma cellCase_le (g : ℕ → ℚ) (cols : ℕ) (th : ℚ) (r c : ℕ) :
    cellCase g cols th r c ≤ 15 := by
  unfold cellCase caseOf cornerBit
  split_ifs <;> norm_num

/-! ## The claims -/

/-- C9: `marching_squares` never modifies the grid buffer (the grid component
of its final state equals the input grid), and `add_bridge_field`'s only
effect is on the grid buffer (the edges component of its final state equals
the input edges buffer; its whole result is the pair of the two buffers it
can reach, so nothing else is written). -/
theorem claim_C9_frame :
    (∀ (g : ℕ → ℚ) (cols rows : ℕ) (ox oy cs th : ℚ) (segs : ℕ → ℚ),
      (marching_squares g cols rows ox oy cs th segs).1 = g) ∧
    (∀ (g : ℕ → ℝ) (cols rows : ℕ) (ox oy cs : ℝ) (edges : ℕ → ℝ)
        (num : ℕ) (base_sigma : ℝ),
      (add_bridge_field g cols rows ox oy cs edges num base_sigma).2 = edges) := by
  constructor
  · intro g cols rows ox oy cs th segs
    rw [marching_squares_eq]
  · intro g cols rows ox oy cs edges num base_sigma
    exact add_bridge_field_snd g cols rows ox oy cs edges num base_sigma

/-- C3: the crossing parameter is `(threshold - v0) / (v1 - v0)`, with the
midpoint fallback `1/2` when `|v1 - v0| < 1e-10`; each edge's crossing is
mapped to world coordinates as `origin + (index + t-offset) * cell_size`; and
for `v0 = 0`, `v1 = 10`, `threshold = 3` the parameter is `0.3`. -/
theorem claim_C3_edge_interpolation :
    (∀ v0 v1 th : ℚ, |v1 - v0| < 1 / 10000000000 → lerp1d v0 v1 th = 1 / 2) ∧
    (∀ v0 v1 th : ℚ, ¬ |v1 - v0| < 1 / 10000000000 →
      lerp1d v0 v1 th = (th - v0) / (v1 - v0)) ∧
    (∀ (g : ℕ → ℚ) (cols : ℕ) (ox oy cs : ℚ) (r c : ℕ) (th : ℚ),
      get_edge_point g cols ox oy cs r c 0 th
          = (ox + ((c : ℚ) + lerp1d (g (r * cols + c)) (g (r * cols + c + 1)) th) * cs,
             oy + (r : ℚ) * cs) ∧
      get_edge_point g cols ox oy cs r c 1 th
          = (ox + ((c : ℚ) + 1) * cs,
             oy + ((r : ℚ)
               + lerp1d (g (r * cols + c + 1)) (g ((r + 1) * cols + c + 1)) th) * cs) ∧
      get_edge_point g cols ox oy cs r c 2 th
          = (ox + ((c : ℚ)
               + lerp1d (g ((r + 1) * cols + c)) (g ((r + 1) * cols + c + 1)) th) * cs,
             oy + ((r : ℚ) + 1) * cs) ∧
      get_edge_point g cols ox oy cs r c 3 th
          = (ox + (c : ℚ) * cs,
             oy + ((r : ℚ) + lerp1d (g (r * cols + c)) (g ((r + 1) * cols + c)) th) * cs)) ∧
    lerp1d 0 10 3 = 3 / 10 := by
  refine ⟨?_, ?_, ?_, by norm_num [lerp1d]⟩
  · intro v0 v1 th h
    simp only [lerp1d]
    rw [if_pos h]
  · intro v0 v1 th h
    simp only [lerp1d]
    rw [if_neg h]
  · intro g cols ox oy cs r c th
    refine ⟨?_, ?_, ?_, ?_⟩ <;>
      · simp only [get_edge_point]
        norm_num [Prod.ext_iff]
        all_goals try constructor
        all_goals first | rfl | trivial | ring

/-- Witness for C3 at concrete inputs: a flat edge gives the midpoint `1/2`,
and `v0 = 0, v1 = 10, threshold = 3` gives `(3 - 0) / (10 - 0)`. -/
theorem claim_C3_edge_interpolation_witness :
    lerp1d 0 0 5 = 1 / 2 ∧ lerp1d 0 10 3 = (3 - 0) / (10 - 0) := by
  constructor
  · exact claim_C3_edge_interpolation.1 0 0 5 (by norm_num)
  · exact claim_C3_edge_interpolation.2.1 0 10 3 (by norm_num)

/-- C1: for a saddle cell the pairing is decided by the corner average; case
5 with center at or above threshold pairs edges (3,2) and (1,0), otherwise
(3,0) and (1,2); case 10 with center at or above threshold pairs (0,3) and
(2,1), otherwise (0,1) and (2,3). -/
theorem claim_C1_saddle_pairing (g : ℕ → ℚ) (cols : ℕ) (ox oy cs th : ℚ) (r c : ℕ) :
    (cellCase g cols th r c = 5 →
      cellSegs g cols ox oy cs th r c
        = if th ≤ centerOf (g (r * cols + c)) (g (r * cols + c + 1))
              (g ((r + 1) * cols + c + 1)) (g ((r + 1) * cols + c)) then
            [(get_edge_point g cols ox oy cs r c 3 th, get_edge_point g cols ox oy cs r c 2 th),
             (get_edge_point g cols ox oy cs r c 1 th, get_edge_point g cols ox oy cs r c 0 th)]
          else
            [(get_edge_point g cols ox oy cs r c 3 th, get_edge_point g cols ox oy cs r c 0 th),
             (get_edge_point g cols ox oy cs r c 1 th, get_edge_point g cols ox oy cs r c 2 th)]) ∧
    (cellCase g cols th r c = 10 →
      cellSegs g cols ox oy cs th r c
        = if th ≤ centerOf (g (r * cols + c)) (g (r * cols + c + 1))
              (g ((r + 1) * cols + c + 1)) (g ((r + 1) * cols + c)) then
            [(get_edge_point g cols ox oy cs r c 0 th, get_edge_point g cols ox oy cs r c 3 th),
             (get_edge_point g cols ox oy cs r c 2 th, get_edge_point g cols ox oy cs r c 1 th)]
          else
            [(get_edge_point g cols ox oy cs r c 0 th, get_edge_point g cols ox oy cs r c 1 th),
             (get_edge_point g cols ox oy cs r c 2 th, get_edge_point g cols ox oy cs r c 3 th)]) := by
  constructor
  · intro h5
    have h5' : caseOf (g (r * cols + c)) (g (r * cols + c + 1))
        (g ((r + 1) * cols + c + 1)) (g ((r + 1) * cols + c)) th = 5 := h5
    simp only [cellSegs, cellPairs, pairsOf, h5, h5']
    norm_num [NUM_PAIRS, List.range_succ, pairAt]
    split_ifs <;> norm_num
  · intro h10
    have h10' : caseOf (g (r * cols + c)) (g (r * cols + c + 1))
        (g ((r + 1) * cols + c + 1)) (g ((r + 1) * cols + c)) th = 10 := h10
    simp only [cellSegs, cellPairs, pairsOf, h10, h10']
    norm_num [NUM_PAIRS, List.range_succ, pairAt]
    split_ifs <;> norm_num

/-- Witness for C1: a concrete case-5 cell with center exactly at the
threshold (chosen pairing (3,2),(1,0)) and a concrete case-10 cell (chosen
pairing (0,3),(2,1)), both evaluated to explicit segment lists. -/
theorem claim_C1_saddle_pairing_witness :
    cellCase (fun n => if n = 1 ∨ n = 2 then (1 : ℚ) else 0) 2 (1/2) 0 0 = 5 ∧
    cellSegs (fun n => if n = 1 ∨ n = 2 then (1 : ℚ) else 0) 2 0 0 1 (1/2) 0 0
      = [((0, 1/2), (1/2, 1)), ((1, 1/2), (1/2, 0))] ∧
    cellCase (fun n => if n = 0 ∨ n = 3 then (1 : ℚ) else 0) 2 (1/2) 0 0 = 10 ∧
    cellSegs (fun n => if n = 0 ∨ n = 3 then (1 : ℚ) else 0) 2 0 0 1 (1/2) 0 0
      = [((1/2, 0), (0, 1/2)), ((1/2, 1), (1, 1/2))] := by
  have h5 : cellCase (fun n => if n = 1 ∨ n = 2 then (1 : ℚ) else 0) 2 (1/2) 0 0 = 5 := by
    norm_num [cellCase, caseOf, cornerBit]
  have h10 : cellCase (fun n => if n = 0 ∨ n = 3 then (1 : ℚ) else 0) 2 (1/2) 0 0 = 10 := by
    norm_num [cellCase, caseOf, cornerBit]
  refine ⟨h5, ?_, h10, ?_⟩
  · rw [(claim_C1_saddle_pairing (fun n => if n = 1 ∨ n = 2 then (1 : ℚ) else 0)
      2 0 0 1 (1/2) 0 0).1 h5]
    norm_num [centerOf, get_edge_point, lerp1d]
  · rw [(claim_C1_saddle_pairing (fun n => if n = 0 ∨ n = 3 then (1 : ℚ) else 0)
      2 0 0 1 (1/2) 0 0).2 h10]
    norm_num [centerOf, get_edge_point, lerp1d]

/-- C5: the case index packs the four inside-bits as
`tl*8 + tr*4 + br*2 + bl` with inside meaning `value >= threshold`; cases 0
and 15 emit no segments, 5 and 10 emit two, every other case emits one
segment joining the crossing points of the two table edges. -/
theorem claim_C5_case_table (g : ℕ → ℚ) (cols : ℕ) (ox oy cs th : ℚ) (r c : ℕ) :
    cellCase g cols th r c
      = (if th ≤ g (r * cols + c) then 1 else 0) * 8
        + (if th ≤ g (r * cols + c + 1) then 1 else 0) * 4
        + (if th ≤ g ((r + 1) * cols + c + 1) then 1 else 0) * 2
        + (if th ≤ g ((r + 1) * cols + c) then 1 else 0) ∧
    (cellSegs g cols ox oy cs th r c).length
      = (if cellCase g cols th r c = 0 ∨ cellCase g cols th r c = 15 then 0
         else if cellCase g cols th r c = 5 ∨ cellCase g cols th r c = 10 then 2
         else 1) ∧
    (cellCase g cols th r c ≠ 0 → cellCase g cols th r c ≠ 5 →
     cellCase g cols th r c ≠ 10 → cellCase g cols th r c ≠ 15 →
      cellSegs g cols ox oy cs th r c
        = [(get_edge_point g cols ox oy cs r c
              (EDGE_TABLE (cellCase g cols th r c)).1.1 th,
            get_edge_point g cols ox oy cs r c
              (EDGE_TABLE (cellCase g cols th r c)).1.2 th)]) := by
  refine ⟨rfl, ?_, ?_⟩
  · rw [cellSegs_length]
    have hle := cellCase_le g cols th r c
    set n := cellCase g cols th r c with hn
    interval_cases n <;> norm_num [NUM_PAIRS]
  · intro h0 h5 h10 h15
    have hle := cellCase_le g cols th r c
    have hnum : NUM_PAIRS (cellCase g cols th r c) = 1 := by
      set n := cellCase g cols th r c with hn
      interval_cases n <;> simp_all [NUM_PAIRS]
    have hpairs : cellPairs g cols th r c = EDGE_TABLE (cellCase g cols th r c) := by
      have h5' : caseOf (g (r * cols + c)) (g (r * cols + c + 1))
          (g ((r + 1) * cols + c + 1)) (g ((r + 1) * cols + c)) th ≠ 5 := h5
      have h10' : caseOf (g (r * cols + c)) (g (r * cols + c + 1))
          (g ((r + 1) * cols + c + 1)) (g ((r + 1) * cols + c)) th ≠ 10 := h10
      simp only [cellPairs, pairsOf]
      rw [if_neg (by tauto)]
      rfl
    simp only [cellSegs]
    rw [if_neg (by tauto), hnum, hpairs]
    simp [List.range_succ, pairAt]

/-- Witness for C5's conditional part: a concrete case-2 cell emits the one
segment of the table entry `(2, 1)`. -/
theorem claim_C5_case_table_witness :
    cellCase (fun n => if n = 3 then (1 : ℚ) else 0) 2 (1/2) 0 0 = 2 ∧
    cellSegs (fun n => if n = 3 then (1 : ℚ) else 0) 2 0 0 1 (1/2) 0 0
      = [(get_edge_point (fun n => if n = 3 then (1 : ℚ) else 0) 2 0 0 1 0 0
            (EDGE_TABLE (cellCase (fun n => if n = 3 then (1 : ℚ) else 0) 2 (1/2) 0 0)).1.1
            (1/2),
          get_edge_point (fun n => if n = 3 then (1 : ℚ) else 0) 2 0 0 1 0 0
            (EDGE_TABLE (cellCase (fun n => if n = 3 then (1 : ℚ) else 0) 2 (1/2) 0 0)).1.2
            (1/2))] := by
  have h2 : cellCase (fun n => if n = 3 then (1 : ℚ) else 0) 2 (1/2) 0 0 = 2 := by
    norm_num [cellCase, caseOf, cornerBit]
  refine ⟨h2, ?_⟩
  exact (claim_C5_case_table (fun n => if n = 3 then (1 : ℚ) else 0) 2 0 0 1 (1/2) 0 0).2.2
    (by rw [h2]; norm_num) (by rw [h2]; norm_num) (by rw [h2]; norm_num) (by rw [h2]; norm_num)

/-- C8: for a grid with `cols, rows >= 2` the returned segment count is at
most `2*(rows-1)*(cols-1)`, and the output buffer is untouched at every
index at or beyond `8*(rows-1)*(cols-1)` floats (all stores land strictly
below that bound). -/
theorem claim_C8_output_bounds (g : ℕ → ℚ) (cols rows : ℕ) (ox oy cs th : ℚ)
    (segs : ℕ → ℚ) (hcols : 2 ≤ cols) (hrows : 2 ≤ rows) (j : ℕ)
    (hj : 8 * (rows - 1) * (cols - 1) ≤ j) :
    (marching_squares g cols rows ox oy cs th segs).2.2 ≤ 2 * (rows - 1) * (cols - 1) ∧
    (marching_squares g cols rows ox oy cs th segs).2.1 j = segs j := by
  have hlen := msSegList_length_le g cols rows ox oy cs th
  constructor
  · rw [marching_squares_count]
    exact hlen
  · rw [marching_squares_eq]
    show (writeList (segs, 0) _).1 j = segs j
    apply writeList_out_upper
    have h4 : (0 + (msSegList g cols rows ox oy cs th).length) * 4
        ≤ 8 * (rows - 1) * (cols - 1) := by
      calc (0 + (msSegList g cols rows ox oy cs th).length) * 4
          = (msSegList g cols rows ox oy cs th).length * 4 := by ring
        _ ≤ (2 * (rows - 1) * (cols - 1)) * 4 := Nat.mul_le_mul_right 4 hlen
        _ = 8 * (rows - 1) * (cols - 1) := by ring
    exact le_trans h4 hj

/-- Witness for C8 on a concrete 2×2 zero grid and the first untouched
buffer index 8. -/
theorem claim_C8_output_bounds_witness :
    (marching_squares (fun _ => (0 : ℚ)) 2 2 0 0 1 (1/2) (fun _ => 0)).2.2
        ≤ 2 * (2 - 1) * (2 - 1) ∧
    (marching_squares (fun _ => (0 : ℚ)) 2 2 0 0 1 (1/2) (fun _ => 0)).2.1 8
        = (fun _ => (0 : ℚ)) 8 :=
  claim_C8_output_bounds (fun _ => 0) 2 2 0 0 1 (1/2) (fun _ => 0)
    (by norm_num) (by norm_num) 8 (by norm_num)

/-- C2: a 3×3 zero grid with value 1 at the center point, threshold 1/2,
produces exactly 4 segments — the diamond of the four midpoints of the grid
edges incident to the center point — with one segment per cell. -/
theorem claim_C2_center_blob_diamond (ox oy cs : ℚ) (segs : ℕ → ℚ) :
    (marching_squares (fun n => if n = 4 then (1 : ℚ) else 0) 3 3 ox oy cs (1/2) segs).2.2
        = 4 ∧
    msSegList (fun n => if n = 4 then (1 : ℚ) else 0) 3 3 ox oy cs (1/2)
      = [((ox + (1/2) * cs, oy + cs), (ox + cs, oy + (1/2) * cs)),
         ((ox + cs, oy + (1/2) * cs), (ox + (3/2) * cs, oy + cs)),
         ((ox + cs, oy + (3/2) * cs), (ox + (1/2) * cs, oy + cs)),
         ((ox + (3/2) * cs, oy + cs), (ox + cs, oy + (3/2) * cs))] ∧
    (cellSegs (fun n => if n = 4 then (1 : ℚ) else 0) 3 ox oy cs (1/2) 0 0).length = 1 ∧
    (cellSegs (fun n => if n = 4 then (1 : ℚ) else 0) 3 ox oy cs (1/2) 0 1).length = 1 ∧
    (cellSegs (fun n => if n = 4 then (1 : ℚ) else 0) 3 ox oy cs (1/2) 1 0).length = 1 ∧
    (cellSegs (fun n => if n = 4 then (1 : ℚ) else 0) 3 ox oy cs (1/2) 1 1).length = 1 := by
  have hlist : msSegList (fun n => if n = 4 then (1 : ℚ) else 0) 3 3 ox oy cs (1/2)
      = [((ox + (1/2) * cs, oy + cs), (ox + cs, oy + (1/2) * cs)),
         ((ox + cs, oy + (1/2) * cs), (ox + (3/2) * cs, oy + cs)),
         ((ox + cs, oy + (3/2) * cs), (ox + (1/2) * cs, oy + cs)),
         ((ox + (3/2) * cs, oy + cs), (ox + cs, oy + (3/2) * cs))] := by
    norm_num [msSegList, List.range_succ, cellSegs, cellCase, caseOf, cornerBit,
      cellPairs, pairsOf, EDGE_TABLE, NUM_PAIRS, pairAt, get_edge_point, lerp1d,
      centerOf, Prod.ext_iff]
    exact ⟨by ring, by ring, by ring, by ring⟩
  refine ⟨?_, hlist, ?_, ?_, ?_, ?_⟩
  · rw [marching_squares_count, hlist]
    rfl
  all_goals
    rw [cellSegs_length]
    norm_num [cellCase, caseOf, cornerBit, NUM_PAIRS]

/-- C10: every emitted segment belongs to some swept cell and both its
endpoints lie inside that cell's world-space square (the interpolation
parameter of a straddling edge lies in `[0, 1]`). -/
theorem claim_C10_endpoints_in_cell (g : ℕ → ℚ) (cols rows : ℕ) (ox oy cs th : ℚ)
    (hcs : 0 < cs) (s : (ℚ × ℚ) × (ℚ × ℚ))
    (hs : s ∈ msSegList g cols rows ox oy cs th) :
    ∃ r c : ℕ, r < rows - 1 ∧ c < cols - 1 ∧
      (ox + (c : ℚ) * cs ≤ s.1.1 ∧ s.1.1 ≤ ox + ((c : ℚ) + 1) * cs ∧
       oy + (r : ℚ) * cs ≤ s.1.2 ∧ s.1.2 ≤ oy + ((r : ℚ) + 1) * cs) ∧
      (ox + (c : ℚ) * cs ≤ s.2.1 ∧ s.2.1 ≤ ox + ((c : ℚ) + 1) * cs ∧
       oy + (r : ℚ) * cs ≤ s.2.2 ∧ s.2.2 ≤ oy + ((r : ℚ) + 1) * cs) := by
  unfold msSegList at hs
  simp only [List.mem_flatMap, List.mem_range] at hs
  obtain ⟨r, hr, c, hc, hcell⟩ := hs
  simp only [cellSegs] at hcell
  by_cases hskip : cellCase g cols th r c = 0 ∨ cellCase g cols th r c = 15
  · rw [if_pos hskip] at hcell
    simp at hcell
  · rw [if_neg hskip] at hcell
    simp only [List.mem_map, List.mem_range] at hcell
    obtain ⟨p, hp, rfl⟩ := hcell
    obtain ⟨⟨ha1, ha2, hb1, hb2⟩, hstr1, hstr2⟩ := cellPairs_emitted_ok g cols th r c p hp
    exact ⟨r, c, hr, hc,
      get_edge_point_mem_cell g cols ox oy cs r c _ th hcs ha1 ha2 hstr1,
      get_edge_point_mem_cell g cols ox oy cs r c _ th hcs hb1 hb2 hstr2⟩

/-- Witness for C10: the single segment of a 2×2 grid with one hot corner
lies inside its cell's unit square. -/
theorem claim_C10_endpoints_in_cell_witness :
    ∃ r c : ℕ, r < 2 - 1 ∧ c < 2 - 1 ∧
      ((0 : ℚ) + (c : ℚ) * 1 ≤ 1/2 ∧ (1/2 : ℚ) ≤ 0 + ((c : ℚ) + 1) * 1 ∧
       (0 : ℚ) + (r : ℚ) * 1 ≤ 0 ∧ (0 : ℚ) ≤ 0 + ((r : ℚ) + 1) * 1) ∧
      ((0 : ℚ) + (c : ℚ) * 1 ≤ 0 ∧ (0 : ℚ) ≤ 0 + ((c : ℚ) + 1) * 1 ∧
       (0 : ℚ) + (r : ℚ) * 1 ≤ 1/2 ∧ (1/2 : ℚ) ≤ 0 + ((r : ℚ) + 1) * 1) := by
  have hmem : (((1/2 : ℚ), (0 : ℚ)), ((0 : ℚ), (1/2 : ℚ)))
      ∈ msSegList (fun n => if n = 0 then (1 : ℚ) else 0) 2 2 0 0 1 (1/2) := by
    norm_num [msSegList, List.range_succ, cellSegs, cellCase, caseOf, cornerBit,
      cellPairs, pairsOf, EDGE_TABLE, NUM_PAIRS, pairAt, get_edge_point, lerp1d, centerOf]
  exact claim_C10_endpoints_in_cell (fun n => if n = 0 then (1 : ℚ) else 0) 2 2 0 0 1 (1/2)
    (by norm_num) (((1/2 : ℚ), (0 : ℚ)), ((0 : ℚ), (1/2 : ℚ))) hmem

/-- C4: for a single bridge edge, a grid cell whose sample point is farther
than `3 * bridgeSigma` from the segment (squared distance above the squared
cutoff, with `bridgeSigma = max (max base_sigma (2.5 * cell_size))
(0.12 * edgeLength)`) is left unchanged, and a cell at distance 0 has
exactly `1.0` added. -/
theorem claim_C4_bridge_cutoff (g : ℕ → ℝ) (cols rows : ℕ) (ox oy cs : ℝ)
    (edges : ℕ → ℝ) (base_sigma : ℝ) (r c : ℕ) (hcs : 0 < cs)
    (hr : r < rows) (hc : c < cols) :
    (cutoffSqOf (max base_sigma (cs * 2.5)) (edges 0) (edges 1) (edges 2) (edges 3)
        < dist_to_segment_sq (ox + (c : ℝ) * cs) (oy + (r : ℝ) * cs)
            (edges 0) (edges 1) (edges 2) (edges 3) →
      (add_bridge_field g cols rows ox oy cs edges 1 base_sigma).1 (r * cols + c)
        = g (r * cols + c)) ∧
    (dist_to_segment_sq (ox + (c : ℝ) * cs) (oy + (r : ℝ) * cs)
        (edges 0) (edges 1) (edges 2) (edges 3) = 0 →
      (add_bridge_field g cols rows ox oy cs edges 1 base_sigma).1 (r * cols + c)
        = g (r * cols + c) + 1) := by
  have hb : 0 < max base_sigma (cs * 2.5) :=
    lt_of_lt_of_le (by nlinarith) (le_max_right _ _)
  have hidx : ((r : ℤ) * (cols : ℤ) + (c : ℤ)).toNat = r * cols + c := by
    have h : (r : ℤ) * (cols : ℤ) + (c : ℤ) = ((r * cols + c : ℕ) : ℤ) := by
      push_cast
      ring
    rw [h, Int.toNat_natCast]
  constructor
  · intro hfar
    rw [add_bridge_field_one, addEdge_eval]
    have h0 : contribSum cols ox oy cs (max base_sigma (cs * 2.5)) (edges 0) (edges 1)
        (edges 2) (edges 3) (r * cols + c)
        (edgeCells cols rows ox oy cs (max base_sigma (cs * 2.5)) (edges 0) (edges 1)
          (edges 2) (edges 3)) = 0 := by
      rw [← hidx]
      apply contribSum_edgeCells_far cols rows ox oy cs _ (edges 0) (edges 1) (edges 2)
        (edges 3) (r : ℤ) (c : ℤ) (by omega) (by omega) (by omega) (by omega)
      unfold closeCell
      simp only [Int.cast_natCast]
      exact not_lt.mpr (le_of_lt hfar)
    rw [h0, add_zero]
  · intro hzero
    rw [add_bridge_field_one, addEdge_eval]
    have hclose : closeCell ox oy cs (max base_sigma (cs * 2.5)) (edges 0) (edges 1)
        (edges 2) (edges 3) ((r : ℤ), (c : ℤ)) := by
      unfold closeCell
      simp only [Int.cast_natCast]
      rw [hzero]
      unfold cutoffSqOf
      exact mul_pos (cutoff_pos _ _ _ _ _ hb) (cutoff_pos _ _ _ _ _ hb)
    have hs := contribSum_edgeCells_single cols rows ox oy cs _ (edges 0) (edges 1)
      (edges 2) (edges 3) hcs hb (r : ℤ) (c : ℤ) (by omega) (by omega) (by omega)
      (by omega) hclose
    rw [← hidx, hs]
    unfold gaussOf
    simp only [Int.cast_natCast]
    rw [hzero]
    norm_num

/-- Witness for C4: a grid point 100√2 away from a point edge (cutoff 7.5)
is unchanged, and a grid point on the edge gets exactly 1 added. -/
theorem claim_C4_bridge_cutoff_witness :
    (add_bridge_field (fun _ => (5 : ℝ)) 1 1 0 0 1 (fun _ => 100) 1 1).1 0 = 5 ∧
    (add_bridge_field (fun _ => (5 : ℝ)) 1 1 0 0 1 (fun _ => 0) 1 1).1 0 = 5 + 1 := by
  constructor
  · apply (claim_C4_bridge_cutoff (fun _ => (5 : ℝ)) 1 1 0 0 1 (fun _ => 100) 1 0 0
      (by norm_num) (by norm_num) (by norm_num)).1
    norm_num [cutoffSqOf, cutoffOf, bridgeSigmaOf, edgeLenOf, dist_to_segment_sq,
      Real.sqrt_zero, max_def]
  · apply (claim_C4_bridge_cutoff (fun _ => (5 : ℝ)) 1 1 0 0 1 (fun _ => 0) 1 0 0
      (by norm_num) (by norm_num) (by norm_num)).2
    norm_num [dist_to_segment_sq]

/-- C6: accumulating two bridge edges in one call equals adding each edge's
independent per-cell contribution to the starting grid (stated under the
claim's disjoint-support hypothesis). -/
theorem claim_C6_additivity (g : ℕ → ℝ) (cols rows : ℕ) (ox oy cs base_sigma : ℝ)
    (a1x a1y b1x b1u a2x a2y b2x b2u : ℝ)
    (hdisj : ∀ r c : ℕ, r < rows → c < cols →
      ¬(closeCell ox oy cs (max base_sigma (cs * 2.5)) a1x a1y b1x b1u ((r : ℤ), (c : ℤ))
        ∧ closeCell ox oy cs (max base_sigma (cs * 2.5)) a2x a2y b2x b2u
            ((r : ℤ), (c : ℤ)))) :
    (add_bridge_field g cols rows ox oy cs
        (fun k => if k = 0 then a1x else if k = 1 then a1y else if k = 2 then b1x
          else if k = 3 then b1u else if k = 4 then a2x else if k = 5 then a2y
          else if k = 6 then b2x else b2u) 2 base_sigma).1
      = fun n => g n
          + ((add_bridge_field g cols rows ox oy cs
                (fun k => if k = 0 then a1x else if k = 1 then a1y
                  else if k = 2 then b1x else b1u) 1 base_sigma).1 n - g n)
          + ((add_bridge_field g cols rows ox oy cs
                (fun k => if k = 0 then a2x else if k = 1 then a2y
                  else if k = 2 then b2x else b2u) 1 base_sigma).1 n - g n) := by
  funext n
  rw [add_bridge_field_two, add_bridge_field_one, add_bridge_field_one]
  simp only [addEdge_eval]
  norm_num
  try ring

/-- Witness for C6 with two point edges far outside a 1×1 grid (disjoint
supports: neither touches any cell). -/
theorem claim_C6_additivity_witness :
    (add_bridge_field (fun _ => (0 : ℝ)) 1 1 0 0 1
        (fun k => if k = 0 then (100 : ℝ) else if k = 1 then 100 else if k = 2 then 100
          else if k = 3 then 100 else if k = 4 then -100 else if k = 5 then -100
          else if k = 6 then -100 else -100) 2 1).1
      = fun n => (fun _ => (0 : ℝ)) n
          + ((add_bridge_field (fun _ => (0 : ℝ)) 1 1 0 0 1
                (fun k => if k = 0 then (100 : ℝ) else if k = 1 then 100
                  else if k = 2 then 100 else 100) 1 1).1 n - (fun _ => (0 : ℝ)) n)
          + ((add_bridge_field (fun _ => (0 : ℝ)) 1 1 0 0 1
                (fun k => if k = 0 then (-100 : ℝ) else if k = 1 then -100
                  else if k = 2 then -100 else -100) 1 1).1 n - (fun _ => (0 : ℝ)) n) := by
  apply claim_C6_additivity
  intro r c hr hc
  interval_cases r
  interval_cases c
  rintro ⟨h1, -⟩
  revert h1
  norm_num [closeCell, dist_to_segment_sq, cutoffSqOf, cutoffOf, bridgeSigmaOf,
    edgeLenOf, Real.sqrt_zero, max_def]

lemma abf_fold_eq (L : List ℕ) (cols rows : ℕ) (ox oy cs bs : ℝ) (g edges : ℕ → ℝ)
    (hEdge : ∀ (ax ay bx b_y : ℝ) (g' : ℕ → ℝ),
      addEdge cols rows ox oy cs bs ax ay bx b_y g'
        = addEdgeNaive cols rows ox oy cs bs ax ay bx b_y g') :
    L.foldl
        (fun (st : (ℕ → ℝ) × (ℕ → ℝ)) i =>
          (addEdge cols rows ox oy cs bs (st.2 (i * 4)) (st.2 (i * 4 + 1))
            (st.2 (i * 4 + 2)) (st.2 (i * 4 + 3)) st.1, st.2))
        (g, edges)
      = L.foldl
          (fun (st : (ℕ → ℝ) × (ℕ → ℝ)) i =>
            (addEdgeNaive cols rows ox oy cs bs (st.2 (i * 4)) (st.2 (i * 4 + 1))
              (st.2 (i * 4 + 2)) (st.2 (i * 4 + 3)) st.1, st.2))
          (g, edges) := by
  induction L generalizing g with
  | nil => rfl
  | cons i L ih =>
    simp only [List.foldl_cons]
    rw [hEdge]
    exact ih _

/-- C7: `add_bridge_field` equals the naive variant that scans every grid
cell with the same cutoff test and Gaussian accumulation — the bounding-box
restriction never drops a contributing cell (under the grid invariant
`cell_size > 0`). -/
theorem claim_C7_bbox_refinement (g : ℕ → ℝ) (cols rows : ℕ) (ox oy cs : ℝ)
    (edges : ℕ → ℝ) (num : ℕ) (base_sigma : ℝ) (hcs : 0 < cs) :
    add_bridge_field g cols rows ox oy cs edges num base_sigma
      = add_bridge_field_naive g cols rows ox oy cs edges num base_sigma := by
  have hb : 0 < max base_sigma (cs * 2.5) :=
    lt_of_lt_of_le (by nlinarith) (le_max_right _ _)
  have hEdge : ∀ (ax ay bx b_y : ℝ) (g' : ℕ → ℝ),
      addEdge cols rows ox oy cs (max base_sigma (cs * 2.5)) ax ay bx b_y g'
        = addEdgeNaive cols rows ox oy cs (max base_sigma (cs * 2.5)) ax ay bx b_y g' := by
    intro ax ay bx b_y g'
    funext n
    rw [addEdge_eval, addEdgeNaive_eval,
      contrib_naive_eq_edge cols rows ox oy cs _ ax ay bx b_y hcs hb n]
  exact abf_fold_eq (List.range num) cols rows ox oy cs (max base_sigma (cs * 2.5))
    g edges hEdge

/-- Witness for C7 at a concrete input. -/
theorem claim_C7_bbox_refinement_witness :
    add_bridge_field (fun _ => (0 : ℝ)) 1 1 0 0 1 (fun _ => 0) 1 1
      = add_bridge_field_naive (fun _ => (0 : ℝ)) 1 1 0 0 1 (fun _ => 0) 1 1 :=
  claim_C7_bbox_refinement (fun _ => 0) 1 1 0 0 1 (fun _ => 0) 1 1 (by norm_num)

end Metaball
